import Mathlib

/-!
# DialogEditSIMDRegister

A shallow embedding of `src/arch/x86-generic/DialogEditSIMDRegister.cpp`
(edb-debugger): the dialog that edits the raw bytes of an MMX/XMM/YMM register
through byte, word, doubleword, quadword, float32 and float64 fields.

Layout of this development:

* the Qt text/number conversions the dialog calls (`QString::arg`,
  `QString::toULongLong`, `QString::toLongLong`), modelled after the Qt
  documentation, since they are library code;
* the byte buffer `value_` and `std::memcpy` in and out of it;
* the dialog state and the member functions `formatInteger`, `readInteger`,
  `updateAllEntriesExcept`, `onIntegerEdited`, `onFloatEdited`, the three
  mode toggles, `set_value`, `value` and the tab-order wiring of the
  constructor;
* the validators the constructor creates and the way a line edit lets text
  through them;
* lemmas and the theorems about them.

Machine integers are natural numbers (or integers) with explicit reduction
modulo `2 ^ w`; a text is a `String`, handled through its list of characters.
-/

namespace DialogEditSIMDRegister

/-! ## Qt number formatting -/

/-- Digit character written by Qt's `qulltoa`: `'0' + c` below ten, `c - 10 + 'a'` from ten on
(letters are lower case). -/
def digitChar (c : Nat) : Char :=
  if c < 10 then Char.ofNat (48 + c) else Char.ofNat (97 + (c - 10))

/-- The loop of Qt's `qulltoa`: while `l != 0`, put the digit of `l % base` in front of what
is already written and divide `l` by `base`. The fuel is the capacity of the local buffer. -/
def qulltoaLoop (base : Nat) : Nat → Nat → List Char → List Char
  | 0, _, acc => acc
  | fuel + 1, l, acc =>
    if l = 0 then acc else qulltoaLoop base fuel (l / base) (digitChar (l % base) :: acc)

/-- Qt's `qulltoa`: the digits of `l` in `base`, most significant first; empty for zero.
The buffer holds the 64 binary digits of the largest `unsigned long long`. -/
def qulltoa (l base : Nat) : List Char :=
  qulltoaLoop base 64 l []

/-- Qt's `QLocaleData::unsLongLongToString` in the C locale, as `QString::arg` calls it
(precision unspecified): the digits, `"0"` for zero, zero-padded on the left up to `width`
when the `ZeroPadded` flag is set. -/
def unsLongLongToString (l base width : Nat) (zeroPadded : Bool) : List Char :=
  let num := if l = 0 then ['0'] else qulltoa l base
  if zeroPadded then List.replicate (width - num.length) '0' ++ num else num

/-- Qt's `QLocaleData::longLongToString` in the C locale, as `QString::arg` calls it: in base
ten a negative number is written as a minus sign followed by the digits of its magnitude (the
zero padding, when asked for, stands between the sign and the digits); in another base the
number is written as the 64-bit unsigned value. -/
def longLongToString (l : Int) (base width : Nat) (zeroPadded : Bool) : List Char :=
  let negative : Bool := decide (l < 0) && decide (base = 10)
  let magnitude : Nat := if base = 10 then l.natAbs else (l % 2 ^ 64).toNat
  let num := if magnitude = 0 then ['0'] else qulltoa magnitude base
  let signWidth := if negative then 1 else 0
  let padded := if zeroPadded then List.replicate (width - num.length - signWidth) '0' ++ num
                else num
  if negative then '-' :: padded else padded

/-- Qt's `QString("%1").arg(qulonglong a, int fieldWidth, int base, QChar fillChar)`: the only
place marker is replaced by the number, right-aligned in `fieldWidth` and filled on the left with
`fillChar`; a fill character `'0'` asks for zero padding of the number itself. -/
def argULongLong (a fieldWidth base : Nat) (fillChar : Char) : String :=
  let s := unsLongLongToString a base fieldWidth (fillChar == '0')
  String.mk (List.replicate (fieldWidth - s.length) fillChar ++ s)

/-- Qt's `QString("%1").arg(qlonglong a, int fieldWidth, int base, QChar fillChar)`. -/
def argLongLong (a : Int) (fieldWidth base : Nat) (fillChar : Char) : String :=
  let s := longLongToString a base fieldWidth (fillChar == '0')
  String.mk (List.replicate (fieldWidth - s.length) fillChar ++ s)

/-! ## Qt number parsing -/

/-- Qt's `QChar::isSpace`: the space, the controls U+0009..U+000D, U+0085, U+00A0 and the
characters of the Unicode separator categories. -/
def isSpace (c : Char) : Bool :=
  let u := c.toNat
  u == 0x20 || (0x09 ≤ u && u ≤ 0x0d) || u == 0x85 || u == 0xa0 || u == 0x1680 ||
    (0x2000 ≤ u && u ≤ 0x200a) || u == 0x2028 || u == 0x2029 || u == 0x202f || u == 0x205f ||
    u == 0x3000

/-- Leading and trailing whitespace is ignored by the Qt conversions. -/
def trimmed (s : List Char) : List Char :=
  ((s.dropWhile isSpace).reverse.dropWhile isSpace).reverse

/-- Value of a digit character as `strtoull` reads it: decimal digits, then letters of either
case counting from ten. -/
def digitValue (c : Char) : Option Nat :=
  let u := c.toNat
  if 48 ≤ u ∧ u ≤ 57 then some (u - 48)
  else if 97 ≤ u ∧ u ≤ 122 then some (u - 97 + 10)
  else if 65 ≤ u ∧ u ≤ 90 then some (u - 65 + 10)
  else none

/-- Reads a run of digits of `base`, most significant first, on top of the accumulator;
`none` when a character is not a digit of the base. -/
def parseDigits (base : Nat) : List Char → Nat → Option Nat
  | [], acc => some acc
  | c :: cs, acc =>
    match digitValue c with
    | some d => if d < base then parseDigits base cs (acc * base + d) else none
    | none => none

/-- In base sixteen `strtoull` skips a leading `0x` or `0X`. -/
def skipHexMarker (base : Nat) (s : List Char) : List Char :=
  match s with
  | '0' :: x :: rest => if base = 16 ∧ (x = 'x' ∨ x = 'X') then rest else s
  | _ => s

/-- The magnitude read by the Qt conversions after the optional sign: at least one digit,
nothing but digits. -/
def parseMagnitude (base : Nat) (s : List Char) : Option Nat :=
  match skipHexMarker base s with
  | [] => none
  | ds => parseDigits base ds 0

/-- A `+` in front of the digits is skipped. -/
def skipPlus (s : List Char) : List Char :=
  match s with
  | '+' :: rest => rest
  | _ => s

/-- Qt's `QString::toULongLong(bool *ok, int base)`: the pair of `*ok` and the returned number.
Whitespace around the number is ignored, a `+` may precede the digits, a `-` is refused, and the
value must fit 64 bits. The number returned on failure is 0. -/
def toULongLong (text : String) (base : Nat) : Bool × Nat :=
  let s := trimmed text.data
  match parseMagnitude base (skipPlus s) with
  | some v => if v < 2 ^ 64 then (true, v) else (false, 0)
  | none => (false, 0)

/-- Qt's `QString::toLongLong(bool *ok, int base)`: the pair of `*ok` and the returned number.
Whitespace around the number is ignored, one sign may precede the digits, and the value must lie
in `[-2^63, 2^63 - 1]`. The number returned on failure is 0. -/
def toLongLong (text : String) (base : Nat) : Bool × Int :=
  let s := trimmed text.data
  match s with
  | '-' :: rest =>
    match parseMagnitude base rest with
    | some v => if v ≤ 2 ^ 63 then (true, - (v : Int)) else (false, 0)
    | none => (false, 0)
  | '+' :: rest =>
    match parseMagnitude base rest with
    | some v => if v < 2 ^ 63 then (true, (v : Int)) else (false, 0)
    | none => (false, 0)
  | _ =>
    match parseMagnitude base s with
    | some v => if v < 2 ^ 63 then (true, (v : Int)) else (false, 0)
    | none => (false, 0)

/-! ## The byte buffer -/

/-- Modelled from the spec: the constant `numBytes` of the absent class declaration, the size
in bytes of the buffer `value_` and of the widest register edited, a YMM register of 256 bits. -/
def numBytes : Nat := 32

/-- Copy by `std::memcpy(&buf[off], src, n)` of the `n` bytes `src` into the buffer. -/
def memcpyTo : List Nat → Nat → List Nat → List Nat
  | buf, _, [] => buf
  | buf, off, b :: bs => memcpyTo (buf.set off b) (off + 1) bs

/-- Object representation of an unsigned integer of `size` bytes on x86: least significant
byte first. -/
def toBytesLE : Nat → Nat → List Nat
  | 0, _ => []
  | size + 1, v => v % 256 :: toBytesLE size (v / 256)

/-- The unsigned integer whose object representation is the given bytes. -/
def fromBytesLE : List Nat → Nat
  | [] => 0
  | b :: bs => b + 256 * fromBytesLE bs

/-- Result of `std::memcpy(&value, &buf[off], sizeof value)` for an unsigned integer `value`
of `size` bytes. -/
def loadInteger (buf : List Nat) (off size : Nat) : Nat :=
  fromBytesLE ((buf.drop off).take size)

/-- Buffer after `std::memcpy(&buf[off], &value, sizeof value)` for an unsigned integer
`value` of `size` bytes. -/
def storeInteger (buf : List Nat) (off size value : Nat) : List Nat :=
  memcpyTo buf off (toBytesLE size value)

/-! ## The dialog state -/

/-- The display mode of the integer fields. -/
inductive Mode where
  | Hex
  | Signed
  | Unsigned
  deriving DecidableEq, Repr

/-- The validator objects created by the constructor. -/
inductive Validator where
  | byteHexValidator | wordHexValidator | dwordHexValidator | qwordHexValidator
  | byteSignedValidator | wordSignedValidator | dwordSignedValidator | qwordSignedValidator
  | byteUnsignedValidator | wordUnsignedValidator | dwordUnsignedValidator
  | qwordUnsignedValidator
  deriving DecidableEq, Repr

/-- A line edit of the dialog: its text and the validator installed on it, if any. -/
structure NumberEdit where
  text : String
  validator : Option Validator
  deriving DecidableEq, Repr

/-- The six arrays of line edits of the dialog. -/
inductive Entries where
  | bytes | words | dwords | qwords | floats32 | floats64
  deriving DecidableEq, Repr

/-- Bytes of the buffer covered by one element of an array: the array has
`numBytes / bytesPerEntry` elements. -/
def Entries.bytesPerEntry : Entries → Nat
  | .bytes => 1
  | .words => 2
  | .dwords => 4
  | .qwords => 8
  | .floats32 => 4
  | .floats64 => 8

/-- Number of elements of an array. -/
def Entries.count (e : Entries) : Nat :=
  numBytes / e.bytesPerEntry

/-- The four arrays of integer fields. -/
def Entries.isInteger : Entries → Bool
  | .bytes | .words | .dwords | .qwords => true
  | .floats32 | .floats64 => false

/-- The register being edited, as far as the dialog uses it: its name, its size in bits and
the bytes of its value. -/
structure Register where
  name : String
  bitSize : Nat
  bytes : List Nat
  deriving DecidableEq, Repr

/-- Modelled from the spec: `Register::value<T>()`, of the absent register class, is the raw
value of the register, here its first `size` bytes (absent bytes read as zero). -/
def Register.value (r : Register) (size : Nat) : List Nat :=
  (List.range size).map (fun i => r.bytes.getD i 0 % 256)

/-- Modelled from the spec: `Register::setValueFrom`, of the absent register class; the
register keeps its name and kind and its raw bytes become the buffer, truncated to the
register's real width. -/
def Register.setValueFrom (r : Register) (buf : List Nat) : Register :=
  { r with bytes := buf.take (r.bitSize / 8) }

/-- Parameters for what the dialog takes from headers that are absent: the text form of the
floating-point values (`formatFloat`, `readFloat`, on the bit patterns; `readFloat` yields a
value only when it sets `ok`), the byte pattern `util::markMemory` fills memory with, and
how a `QULongValidator` judges a text that is not a decimal number. -/
structure Env where
  formatFloat32 : Nat → String
  formatFloat64 : Nat → String
  readFloat32 : String → Option Nat
  readFloat64 : String → Option Nat
  markByte : Nat → Nat
  acceptsNonNumber : String → Bool

/-- The members of the dialog that the edit logic reads and writes. -/
structure Dialog where
  mode : Mode
  value_ : List Nat
  bytes : List NumberEdit
  words : List NumberEdit
  dwords : List NumberEdit
  qwords : List NumberEdit
  floats32 : List NumberEdit
  floats64 : List NumberEdit
  reg : Register
  deriving DecidableEq, Repr

/-- The array of line edits of a given kind. -/
def Dialog.entries (d : Dialog) : Entries → List NumberEdit
  | .bytes => d.bytes
  | .words => d.words
  | .dwords => d.dwords
  | .qwords => d.qwords
  | .floats32 => d.floats32
  | .floats64 => d.floats64

/-- The text shown by element `i` of an array (`elements[i]->text()`). -/
def Dialog.text (d : Dialog) (e : Entries) (i : Nat) : String :=
  match (d.entries e)[i]? with
  | some edit => edit.text
  | none => ""

/-- The call `entries[i]->setText(t)`. -/
def setText (entries : List NumberEdit) (i : Nat) (t : String) : List NumberEdit :=
  entries.modify (fun edit => { edit with text := t }) i

/-- The call `entry->setValidator(v)` on every element of an array. -/
def setValidator (entries : List NumberEdit) (v : Validator) : List NumberEdit :=
  entries.map (fun edit => { edit with validator := some v })

/-! ## Reading and formatting integers -/

/-- The conversion `static_cast<Signed>(integer)` of an unsigned integer of `size` bytes to
the signed type of the same size. -/
def toSigned (size integer : Nat) : Int :=
  if integer < 2 ^ (8 * size - 1) then (integer : Int) else (integer : Int) - 2 ^ (8 * size)

/-- Text set by `formatInteger(edit, integer)` for an unsigned `integer` of `size` bytes.
A `std::uint8_t` argument is promoted to `int` and takes the signed overload of
`QString::arg`; the wider unsigned types take the unsigned one. -/
def formatInteger (mode : Mode) (size integer : Nat) : String :=
  match mode with
  | .Hex =>
    if size = 1 then argLongLong (integer : Int) (2 * size) 16 '0'
    else argULongLong integer (2 * size) 16 '0'
  | .Signed => argLongLong (toSigned size integer) 0 10 ' '
  | .Unsigned =>
    if size = 1 then argLongLong (integer : Int) 0 10 ' '
    else argULongLong integer 0 10 ' '

/-- Value of the local `ok` of `readInteger` after the conversion; the function does not
look at it. -/
def readIntegerOk (mode : Mode) (text : String) : Bool :=
  match mode with
  | .Hex => (toULongLong text 16).1
  | .Signed => (toLongLong text 10).1
  | .Unsigned => (toULongLong text 10).1

/-- The function `readInteger`: the number converted from the text of the line edit according
to the mode, as the `std::uint64_t` it returns. -/
def readInteger (mode : Mode) (text : String) : Nat :=
  match mode with
  | .Hex => (toULongLong text 16).2 % 2 ^ 64
  | .Signed => ((toLongLong text 10).2 % 2 ^ 64).toNat
  | .Unsigned => (toULongLong text 10).2 % 2 ^ 64

/-! ## Refreshing the fields -/

/-- One loop of `updateAllEntriesExcept` over an array: for each index below `count` whose
line edit is not the one to leave alone, set its text to `newText index`. -/
def updateEntries (count : Nat) (isNotUpdated : Nat → Bool) (newText : Nat → String)
    (entries : List NumberEdit) : List NumberEdit :=
  (List.range count).foldl
    (fun es i => if isNotUpdated i then es else setText es i (newText i)) entries

/-- The function `updateAllEntriesExcept(notUpdated)`. A line edit is identified by its array
and its index in it; `none` stands for `nullptr`. Each loop copies the bytes of an element out
of `value_` and sets the text of its line edit, unless that is the one not to update. -/
def updateAllEntriesExcept (env : Env) (notUpdated : Option (Entries × Nat)) (d : Dialog) :
    Dialog :=
  let skip (e : Entries) (i : Nat) : Bool := decide (notUpdated = some (e, i))
  { d with
    bytes := updateEntries numBytes (skip .bytes)
      (fun byte => formatInteger d.mode 1 (d.value_.getD byte 0)) d.bytes
    words := updateEntries (numBytes / 2) (skip .words)
      (fun word => formatInteger d.mode 2 (loadInteger d.value_ (word * 2) 2)) d.words
    dwords := updateEntries (numBytes / 4) (skip .dwords)
      (fun dword => formatInteger d.mode 4 (loadInteger d.value_ (dword * 4) 4)) d.dwords
    qwords := updateEntries (numBytes / 8) (skip .qwords)
      (fun qword => formatInteger d.mode 8 (loadInteger d.value_ (qword * 8) 8)) d.qwords
    floats32 := updateEntries d.floats32.length (skip .floats32)
      (fun float32 => env.formatFloat32 (loadInteger d.value_ (float32 * 4) 4)) d.floats32
    floats64 := updateEntries d.floats64.length (skip .floats64)
      (fun float64 => env.formatFloat64 (loadInteger d.value_ (float64 * 8) 8)) d.floats64 }

/-! ## The edit handlers -/

/-- The function `onIntegerEdited<Integer>(sender, elements)` with `size = sizeof(Integer)`
and `elementIndex` the position of the sender in `elements`: the number read from the line edit
is converted to `Integer`, copied into the buffer at `elementIndex * sizeof(value)`, and every
other field is refreshed. -/
def onIntegerEdited (env : Env) (size : Nat) (elements : Entries) (elementIndex : Nat)
    (d : Dialog) : Dialog :=
  let value := readInteger d.mode (d.text elements elementIndex) % 2 ^ (8 * size)
  let d1 := { d with value_ := storeInteger d.value_ (elementIndex * size) size value }
  updateAllEntriesExcept env (some (elements, elementIndex)) d1

/-- The function `onFloatEdited<Float>(sender, elements)` with `size = sizeof(Float)`: the
buffer is written and the other fields refreshed only when `readFloat` sets `ok`. -/
def onFloatEdited (env : Env) (size : Nat) (readFloat : String → Option Nat)
    (elements : Entries) (floatIndex : Nat) (d : Dialog) : Dialog :=
  match readFloat (d.text elements floatIndex) with
  | some value =>
    let d1 := { d with
      value_ := storeInteger d.value_ (floatIndex * size) size (value % 2 ^ (8 * size)) }
    updateAllEntriesExcept env (some (elements, floatIndex)) d1
  | none => d

/-- The slot `onByteEdited`, the sender being `bytes[i]`. -/
def onByteEdited (env : Env) (i : Nat) (d : Dialog) : Dialog :=
  onIntegerEdited env 1 .bytes i d

/-- The slot `onWordEdited`, the sender being `words[i]`. -/
def onWordEdited (env : Env) (i : Nat) (d : Dialog) : Dialog :=
  onIntegerEdited env 2 .words i d

/-- The slot `onDwordEdited`, the sender being `dwords[i]`. -/
def onDwordEdited (env : Env) (i : Nat) (d : Dialog) : Dialog :=
  onIntegerEdited env 4 .dwords i d

/-- The slot `onQwordEdited`, the sender being `qwords[i]`. -/
def onQwordEdited (env : Env) (i : Nat) (d : Dialog) : Dialog :=
  onIntegerEdited env 8 .qwords i d

/-- The slot `onFloat32Edited`, the sender being `floats32[i]`. -/
def onFloat32Edited (env : Env) (i : Nat) (d : Dialog) : Dialog :=
  onFloatEdited env 4 env.readFloat32 .floats32 i d

/-- The slot `onFloat64Edited`, the sender being `floats64[i]`. -/
def onFloat64Edited (env : Env) (i : Nat) (d : Dialog) : Dialog :=
  onFloatEdited env 8 env.readFloat64 .floats64 i d

/-- The slot that `setupEntries` connects to the signal `textEdited` of the line edits of each
array. -/
def editedSlot (env : Env) (e : Entries) (i : Nat) (d : Dialog) : Dialog :=
  match e with
  | .bytes => onByteEdited env i d
  | .words => onWordEdited env i d
  | .dwords => onDwordEdited env i d
  | .qwords => onQwordEdited env i d
  | .floats32 => onFloat32Edited env i d
  | .floats64 => onFloat64Edited env i d

/-- The dialog with the text of one line edit replaced. -/
def Dialog.withText (d : Dialog) (e : Entries) (i : Nat) (t : String) : Dialog :=
  match e with
  | .bytes => { d with bytes := setText d.bytes i t }
  | .words => { d with words := setText d.words i t }
  | .dwords => { d with dwords := setText d.dwords i t }
  | .qwords => { d with qwords := setText d.qwords i t }
  | .floats32 => { d with floats32 := setText d.floats32 i t }
  | .floats64 => { d with floats64 := setText d.floats64 i t }

/-- The user changes the text of element `i` of an array to `t`: the line edit holds the new
text and emits `textEdited`, which runs the connected slot. -/
def textEdited (env : Env) (e : Entries) (i : Nat) (t : String) (d : Dialog) : Dialog :=
  editedSlot env e i (d.withText e i t)

/-! ## The mode toggles -/

/-- The test `!bytes.front()->validator()`: no validator is installed on the first byte field
yet. -/
def noValidatorYet (d : Dialog) : Bool :=
  match d.bytes.head? with
  | some edit => edit.validator.isNone
  | none => true

/-- The slot `onHexToggled(checked)`. -/
def onHexToggled (env : Env) (checked : Bool) (d : Dialog) : Dialog :=
  if (checked && decide (d.mode ≠ Mode.Hex)) || noValidatorYet d then
    updateAllEntriesExcept env none
      { d with
        mode := Mode.Hex
        bytes := setValidator d.bytes .byteHexValidator
        words := setValidator d.words .wordHexValidator
        dwords := setValidator d.dwords .dwordHexValidator
        qwords := setValidator d.qwords .qwordHexValidator }
  else d

/-- The slot `onSignedToggled(checked)`. -/
def onSignedToggled (env : Env) (checked : Bool) (d : Dialog) : Dialog :=
  if (checked && decide (d.mode ≠ Mode.Signed)) || noValidatorYet d then
    updateAllEntriesExcept env none
      { d with
        mode := Mode.Signed
        bytes := setValidator d.bytes .byteSignedValidator
        words := setValidator d.words .wordSignedValidator
        dwords := setValidator d.dwords .dwordSignedValidator
        qwords := setValidator d.qwords .qwordSignedValidator }
  else d

/-- The slot `onUnsignedToggled(checked)`. -/
def onUnsignedToggled (env : Env) (checked : Bool) (d : Dialog) : Dialog :=
  if (checked && decide (d.mode ≠ Mode.Unsigned)) || noValidatorYet d then
    updateAllEntriesExcept env none
      { d with
        mode := Mode.Unsigned
        bytes := setValidator d.bytes .byteUnsignedValidator
        words := setValidator d.words .wordUnsignedValidator
        dwords := setValidator d.dwords .dwordUnsignedValidator
        qwords := setValidator d.qwords .qwordUnsignedValidator }
  else d

/-! ## Loading and returning the register -/

/-- The call `util::markMemory(&value_, value_.size())`: every byte of the buffer is
overwritten with the marker pattern. -/
def markMemory (env : Env) (buf : List Nat) : List Nat :=
  (List.range buf.length).map (fun i => env.markByte i % 256)

/-- A decimal digit of a register name, the class `[0-9]`. -/
def isNameDigit (c : Char) : Bool :=
  decide (48 ≤ c.toNat ∧ c.toNat ≤ 57)

/-- The test `QRegExp("mm[0-7]").exactMatch(name)`. -/
def isMMXName (name : String) : Bool :=
  match name.data with
  | ['m', 'm', c] => decide (48 ≤ c.toNat ∧ c.toNat ≤ 55)
  | _ => false

/-- The test `QRegExp("xmm[0-9]+").exactMatch(name)`. -/
def isXMMName (name : String) : Bool :=
  match name.data with
  | 'x' :: 'm' :: 'm' :: c :: cs => (c :: cs).all isNameDigit
  | _ => false

/-- The test `QRegExp("ymm[0-9]+").exactMatch(name)`. -/
def isYMMName (name : String) : Bool :=
  match name.data with
  | 'y' :: 'm' :: 'm' :: c :: cs => (c :: cs).all isNameDigit
  | _ => false

/-- The assertion `newReg.bitSize()<=8*sizeof value_` at the start of `set_value`: the
precondition of the function. -/
def fitsBuffer (newReg : Register) : Prop :=
  newReg.bitSize ≤ 8 * numBytes

instance (newReg : Register) : Decidable (fitsBuffer newReg) :=
  inferInstanceAs (Decidable (newReg.bitSize ≤ 8 * numBytes))

/-- The function `set_value(newReg)`, for a register that passes its assertion `fitsBuffer`:
the buffer is marked, the value of the register is copied to its start (8, 16 or 32 bytes by
the kind of register the name tells; nothing for another name, which is only logged), and
every field is refreshed. The layout calls, which show and hide widgets, do not touch the
members modelled here. -/
def set_value (env : Env) (newReg : Register) (d : Dialog) : Dialog :=
  let marked := markMemory env d.value_
  let buf :=
    if isMMXName newReg.name then memcpyTo marked 0 (newReg.value 8)
    else if isXMMName newReg.name then memcpyTo marked 0 (newReg.value 16)
    else if isYMMName newReg.name then memcpyTo marked 0 (newReg.value 32)
    else marked
  updateAllEntriesExcept env none { d with reg := newReg, value_ := buf }

/-- The function `value()`: a copy of the register with its value taken from the buffer. -/
def value (d : Dialog) : Register :=
  d.reg.setValueFrom d.value_

/-! ## The constructor -/

/-- The line edits `setupEntries` creates for an array: empty, without validator. -/
def setupEntries (e : Entries) : List NumberEdit :=
  List.replicate e.count { text := "", validator := none }

/-- The state the constructor leaves: the six arrays are set up, the mode is `Hex`, and
checking the radio button `Hexadecimal` runs `onHexToggled(true)`. The buffer `value_` is not
initialised by the constructor; `initial` stands for its content, and `initialReg` for the
default-constructed register. -/
def construct (env : Env) (initial : List Nat) (initialReg : Register) : Dialog :=
  onHexToggled env true
    { mode := Mode.Hex
      value_ := initial
      bytes := setupEntries .bytes
      words := setupEntries .words
      dwords := setupEntries .dwords
      qwords := setupEntries .qwords
      floats32 := setupEntries .floats32
      floats64 := setupEntries .floats64
      reg := initialReg }

/-- The array accesses of a tab-order loop
`for(int i=start;i>0;--i) setTabOrder(array[i], array[i-1]);`, in order. -/
def tabOrderLoop (e : Entries) : Nat → List (Entries × Nat)
  | 0 => []
  | i + 1 => (e, i + 1) :: (e, i) :: tabOrderLoop e i

/-- The array accesses of the six tab-order loops of the constructor, each with the start
index written in the source. -/
def tabOrderLoops (n : Nat) : List (Entries × Nat) :=
  tabOrderLoop .bytes (n - 1) ++
  tabOrderLoop .words (n / 2 - 1) ++
  tabOrderLoop .dwords (n / 4 - 1) ++
  tabOrderLoop .qwords (n / 4 - 1) ++
  tabOrderLoop .floats32 (n / 4 - 1) ++
  tabOrderLoop .floats64 (n / 4 - 1)

/-- An access `array[index]` is within the bounds of the array. -/
def inBounds (access : Entries × Nat) : Prop :=
  access.2 < access.1.count

instance (access : Entries × Nat) : Decidable (inBounds access) :=
  inferInstanceAs (Decidable (access.2 < access.1.count))

/-! ## The validators -/

/-- A character of the class `[0-9a-fA-F]`. -/
def isHexPatternChar (c : Char) : Bool :=
  let u := c.toNat
  (48 ≤ u && u ≤ 57) || (97 ≤ u && u ≤ 102) || (65 ≤ u && u ≤ 70)

/-- The test `QRegExp("[0-9a-fA-F]{0,n}").exactMatch(text)` of the validators
`byteHexValidator` (`n = 2`), `wordHexValidator` (4), `dwordHexValidator` (8) and
`qwordHexValidator` (16): at most `n` characters, all hexadecimal digits. A text that passes
is accepted in the line edit. -/
def matchesHexPattern (n : Nat) (text : String) : Bool :=
  decide (text.data.length ≤ n) && text.data.all isHexPatternChar

/-- The limit `INT8_MIN` of `<cstdint>`. -/
def INT8_MIN : Int := -128

/-- The limit `INT8_MAX` of `<cstdint>`. -/
def INT8_MAX : Int := 127

/-- The limit `INT16_MIN` of `<cstdint>`. -/
def INT16_MIN : Int := -32768

/-- The limit `INT16_MAX` of `<cstdint>`. -/
def INT16_MAX : Int := 32767

/-- The limit `INT32_MIN` of `<cstdint>`. -/
def INT32_MIN : Int := -2147483648

/-- The limit `INT32_MAX` of `<cstdint>`. -/
def INT32_MAX : Int := 2147483647

/-- The limit `INT64_MIN` of `<cstdint>`. -/
def INT64_MIN : Int := -9223372036854775808

/-- The limit `INT64_MAX` of `<cstdint>`. -/
def INT64_MAX : Int := 9223372036854775807

/-- The limit `UINT8_MAX` of `<cstdint>`. -/
def UINT8_MAX : Int := 255

/-- The limit `UINT16_MAX` of `<cstdint>`. -/
def UINT16_MAX : Int := 65535

/-- The limit `UINT32_MAX` of `<cstdint>`. -/
def UINT32_MAX : Int := 4294967295

/-- The limit `UINT64_MAX` of `<cstdint>`. -/
def UINT64_MAX : Int := 18446744073709551615

/-- The value of a decimal text, of any size: whitespace around it is ignored, one sign may
precede the digits, and there is at least one digit and nothing but digits; `none` for a
text that is not a decimal number. -/
def decimalValue (text : String) : Option Int :=
  let s := trimmed text.data
  match s with
  | '-' :: rest => (parseMagnitude 10 rest).map (fun v => - (v : Int))
  | '+' :: rest => (parseMagnitude 10 rest).map (fun v => (v : Int))
  | _ => (parseMagnitude 10 s).map (fun v => (v : Int))

/-- Modelled from the spec: the validator `QULongValidator(minimum, maximum)`, a class of
this repository absent from the file. By the spec the numeric ranges are enforced by the
validator and out-of-range input is never allowed to reach the buffer: a text that is a
decimal number is accepted exactly when the number lies in `[minimum, maximum]`. The spec
does not say how a text that is not a number is judged; that is left to the parameter
`acceptsNonNumber`. -/
def ulongValidatorAccepts (env : Env) (minimum maximum : Int) (text : String) : Bool :=
  match decimalValue text with
  | some x => decide (minimum ≤ x ∧ x ≤ maximum)
  | none => env.acceptsNonNumber text

/-- Whether a validator lets a text into its line edit (does not judge it invalid), each
validator with the pattern or the bounds the constructor creates it with. -/
def Validator.accepts (env : Env) (v : Validator) (text : String) : Bool :=
  match v with
  | .byteHexValidator => matchesHexPattern 2 text
  | .wordHexValidator => matchesHexPattern 4 text
  | .dwordHexValidator => matchesHexPattern 8 text
  | .qwordHexValidator => matchesHexPattern 16 text
  | .byteSignedValidator => ulongValidatorAccepts env INT8_MIN INT8_MAX text
  | .wordSignedValidator => ulongValidatorAccepts env INT16_MIN INT16_MAX text
  | .dwordSignedValidator => ulongValidatorAccepts env INT32_MIN INT32_MAX text
  | .qwordSignedValidator => ulongValidatorAccepts env INT64_MIN INT64_MAX text
  | .byteUnsignedValidator => ulongValidatorAccepts env 0 UINT8_MAX text
  | .wordUnsignedValidator => ulongValidatorAccepts env 0 UINT16_MAX text
  | .dwordUnsignedValidator => ulongValidatorAccepts env 0 UINT32_MAX text
  | .qwordUnsignedValidator => ulongValidatorAccepts env 0 UINT64_MAX text

/-- The validator installed on element `i` of an array (`elements[i]->validator()`). -/
def Dialog.validatorAt (d : Dialog) (e : Entries) (i : Nat) : Option Validator :=
  match (d.entries e)[i]? with
  | some edit => edit.validator
  | none => none

/-- The validator the mode toggles install on the line edits of an array in each mode; the
float fields get none. -/
def installedValidator (mode : Mode) (e : Entries) : Option Validator :=
  match mode, e with
  | .Hex, .bytes => some .byteHexValidator
  | .Hex, .words => some .wordHexValidator
  | .Hex, .dwords => some .dwordHexValidator
  | .Hex, .qwords => some .qwordHexValidator
  | .Signed, .bytes => some .byteSignedValidator
  | .Signed, .words => some .wordSignedValidator
  | .Signed, .dwords => some .dwordSignedValidator
  | .Signed, .qwords => some .qwordSignedValidator
  | .Unsigned, .bytes => some .byteUnsignedValidator
  | .Unsigned, .words => some .wordUnsignedValidator
  | .Unsigned, .dwords => some .dwordUnsignedValidator
  | .Unsigned, .qwords => some .qwordUnsignedValidator
  | _, .floats32 => none
  | _, .floats64 => none

/-- The validators on the integer fields are those of the current mode: the state the
constructor leaves and every toggle, load and edit keeps. -/
def Dialog.Validated (d : Dialog) : Prop :=
  ∀ e i, e.isInteger = true → i < e.count → d.validatorAt e i = installedValidator d.mode e

/-- The user gives element `i` of an array the new text `t`. A line edit with a validator
refuses input that the validator judges invalid: the text stays as it was and no signal is
emitted. Otherwise the line edit takes the text and emits `textEdited`. -/
def lineEditInput (env : Env) (e : Entries) (i : Nat) (t : String) (d : Dialog) : Dialog :=
  match d.validatorAt e i with
  | some v => if v.accepts env t then textEdited env e i t d else d
  | none => textEdited env e i t d

/-- What the user can do to the dialog once a register is loaded: change the text of a field
or toggle one of the three radio buttons. -/
inductive Event where
  | edited (e : Entries) (i : Nat) (t : String)
  | hexToggled (checked : Bool)
  | signedToggled (checked : Bool)
  | unsignedToggled (checked : Bool)

/-- The slot an event runs. -/
def Event.run (env : Env) (ev : Event) (d : Dialog) : Dialog :=
  match ev with
  | .edited e i t => textEdited env e i t d
  | .hexToggled checked => onHexToggled env checked d
  | .signedToggled checked => onSignedToggled env checked d
  | .unsignedToggled checked => onUnsignedToggled env checked d

/-- The state after a sequence of events, in order. -/
def runEvents (env : Env) (events : List Event) (d : Dialog) : Dialog :=
  events.foldl (fun st ev => ev.run env st) d

/-- An event the dialog of an MMX register allows: an edit is of an integer field among the
visible ones, slot `i < 8 / s` of an array of elements of `s` bytes (the float rows and the
columns of the bytes from 8 on are hidden). -/
def Event.onMMX (ev : Event) : Prop :=
  match ev with
  | .edited e i _ => e.isInteger = true ∧ i < 8 / e.bytesPerEntry
  | _ => True

/-! ## Well-formed states -/

/-- The shape the class declaration gives the members: `value_` has `numBytes` bytes, each
below 256, and each array has its declared number of line edits. -/
structure Dialog.WF (d : Dialog) : Prop where
  value_length : d.value_.length = numBytes
  value_byte : ∀ b ∈ d.value_, b < 256
  entries_length : ∀ e, (d.entries e).length = e.count

/-- A sample environment for evaluating the dialog: the float texts show the bit pattern in
decimal. -/
def sampleEnv : Env where
  formatFloat32 := fun bits => toString bits
  formatFloat64 := fun bits => toString bits
  readFloat32 := fun t => t.toNat?
  readFloat64 := fun t => t.toNat?
  markByte := fun i => if i % 2 = 1 then 0xba else 0xd1
  acceptsNonNumber := fun t => t.data.isEmpty

/-- An XMM register holding 16 zero bytes. -/
def xmmZero : Register :=
  { name := "xmm0", bitSize := 128, bytes := List.replicate 16 0 }

/-- The dialog just constructed and loaded with `xmmZero`. -/
def xmmZeroDialog : Dialog :=
  set_value sampleEnv xmmZero
    (construct sampleEnv (List.replicate numBytes 0) { name := "", bitSize := 0, bytes := [] })

/-! ## Notions used in the statements -/

/-- The text of a number as the Qt conversions write it: `"0"` for zero, else the digits. -/
def numStr (base l : Nat) : List Char :=
  if l = 0 then ['0'] else qulltoa l base

/-- A non-empty run of digit characters of the base. -/
def PlainDigits (base : Nat) (s : List Char) : Prop :=
  s ≠ [] ∧ ∀ c ∈ s, ∃ k, k < base ∧ c = digitChar k

/-- The sizes of the integer element types: `std::uint8_t`, `std::uint16_t`, `std::uint32_t`
and `std::uint64_t`. -/
def IsIntegerSize (size : Nat) : Prop :=
  size = 1 ∨ size = 2 ∨ size = 4 ∨ size = 8

instance (size : Nat) : Decidable (IsIntegerSize size) :=
  inferInstanceAs (Decidable (size = 1 ∨ size = 2 ∨ size = 4 ∨ size = 8))

/-- The text `updateAllEntriesExcept` gives element `j` of an array when it updates it. -/
def refreshedText (env : Env) (d : Dialog) (e : Entries) (j : Nat) : String :=
  match e with
  | .bytes => formatInteger d.mode 1 (d.value_.getD j 0)
  | .words => formatInteger d.mode 2 (loadInteger d.value_ (j * 2) 2)
  | .dwords => formatInteger d.mode 4 (loadInteger d.value_ (j * 4) 4)
  | .qwords => formatInteger d.mode 8 (loadInteger d.value_ (j * 8) 8)
  | .floats32 => env.formatFloat32 (loadInteger d.value_ (j * 4) 4)
  | .floats64 => env.formatFloat64 (loadInteger d.value_ (j * 8) 8)

/-- The number a text denotes in a mode: what the conversion of `readInteger` returns, before
it is turned into a `std::uint64_t`. -/
def typedNumber (mode : Mode) (text : String) : Int :=
  match mode with
  | .Hex => ((toULongLong text 16).2 : Int)
  | .Signed => (toLongLong text 10).2
  | .Unsigned => ((toULongLong text 10).2 : Int)

/-- The number an element of `size` bytes holding `integer` stands for in a mode: its
two's-complement reading in `Signed` mode, the unsigned one otherwise. -/
def shownNumber (mode : Mode) (size integer : Nat) : Int :=
  match mode with
  | .Signed => toSigned size integer
  | _ => (integer : Int)

/-- The range of an element of `size` bytes in a mode. -/
def InRange (mode : Mode) (size : Nat) (x : Int) : Prop :=
  match mode with
  | .Signed => -(2 ^ (8 * size - 1)) ≤ x ∧ x < 2 ^ (8 * size - 1)
  | _ => 0 ≤ x ∧ x < 2 ^ (8 * size)

instance (mode : Mode) (size : Nat) (x : Int) : Decidable (InRange mode size x) := by
  unfold InRange
  cases mode <;> exact inferInstance

/-- The bytes of the buffer at the offsets of element `j` of an array, as an unsigned
integer. -/
def Dialog.slice (d : Dialog) (e : Entries) (j : Nat) : Nat :=
  loadInteger d.value_ (j * e.bytesPerEntry) e.bytesPerEntry

/-- A register whose first byte is `0xFF`. -/
def xmmFF : Register :=
  { name := "xmm1", bitSize := 128, bytes := 0xff :: List.replicate 15 0 }

/-- The dialog loaded with `xmmFF` and switched to `Signed` mode. -/
def signedFFDialog : Dialog :=
  onSignedToggled sampleEnv true (set_value sampleEnv xmmFF xmmZeroDialog)

/-- An MMX register. -/
def mm3 : Register :=
  { name := "mm3", bitSize := 64, bytes := [1, 2, 3, 4, 5, 6, 7, 8] }

/-- A register whose first two bytes are `0xAB` and `0xCD`. -/
def xmmAB : Register :=
  { name := "xmm2", bitSize := 128, bytes := 0xab :: 0xcd :: List.replicate 14 0 }

/-- The dialog loaded with `xmmAB`, in `Hex` mode. -/
def loadedABDialog : Dialog :=
  set_value sampleEnv xmmAB xmmZeroDialog

/-- The dialog loaded with a zero XMM register and switched to `Signed` mode. -/
def signedZeroDialog : Dialog :=
  onSignedToggled sampleEnv true xmmZeroDialog

/-! ## Lemmas: bytes and integers -/

theorem toBytesLE_length (size v : Nat) : (toBytesLE size v).length = size := by
  induction size generalizing v with
  | zero => rfl
  | succ n ih => simp [toBytesLE, ih]

theorem toBytesLE_byte (size v : Nat) : ∀ b ∈ toBytesLE size v, b < 256 := by
  induction size generalizing v with
  | zero => simp [toBytesLE]
  | succ n ih =>
    intro b hb
    simp only [toBytesLE, List.mem_cons] at hb
    rcases hb with rfl | hb
    · exact Nat.mod_lt _ (by norm_num)
    · exact ih _ b hb

theorem fromBytesLE_toBytesLE (size v : Nat) :
    fromBytesLE (toBytesLE size v) = v % 256 ^ size := by
  induction size generalizing v with
  | zero => simp [toBytesLE, fromBytesLE, Nat.mod_one]
  | succ n ih =>
    simp only [toBytesLE, fromBytesLE, ih]
    rw [pow_succ', Nat.mod_mul]

theorem fromBytesLE_lt (l : List Nat) (h : ∀ b ∈ l, b < 256) :
    fromBytesLE l < 256 ^ l.length := by
  induction l with
  | nil => simp [fromBytesLE]
  | cons b bs ih =>
    have hb : b < 256 := h b (List.mem_cons_self _ _)
    have hbs := ih (fun x hx => h x (List.mem_cons_of_mem _ hx))
    simp only [fromBytesLE, List.length_cons, pow_succ]
    omega

theorem memcpyTo_length (buf : List Nat) (off : Nat) (src : List Nat) :
    (memcpyTo buf off src).length = buf.length := by
  induction src generalizing buf off with
  | nil => rfl
  | cons b bs ih => simp [memcpyTo, ih]

theorem memcpyTo_getElem? (buf : List Nat) (off : Nat) (src : List Nat) (j : Nat) :
    (memcpyTo buf off src)[j]? =
      if off ≤ j ∧ j < off + src.length ∧ j < buf.length then src[j - off]? else buf[j]? := by
  induction src generalizing buf off with
  | nil =>
    simp only [memcpyTo, List.length_nil, Nat.add_zero]
    rw [if_neg (by omega)]
  | cons b bs ih =>
    simp only [memcpyTo, ih, List.length_set, List.length_cons]
    by_cases h1 : off + 1 ≤ j ∧ j < off + 1 + bs.length ∧ j < buf.length
    · rw [if_pos h1, if_pos (by omega)]
      obtain ⟨k, hk⟩ : ∃ k, j - off = k + 1 := ⟨j - off - 1, by omega⟩
      rw [hk, List.getElem?_cons_succ]
      congr 1
      omega
    · rw [if_neg h1]
      by_cases h2 : off = j
      · subst h2
        by_cases h3 : off < buf.length
        · rw [if_pos (by omega)]
          simp [List.getElem?_set, h3]
        · rw [if_neg (by omega)]
          simp [List.getElem?_set, h3]
          omega
      · rw [List.getElem?_set, if_neg h2, if_neg (by omega)]

theorem memcpyTo_byte (buf : List Nat) (off : Nat) (src : List Nat)
    (hbuf : ∀ b ∈ buf, b < 256) (hsrc : ∀ b ∈ src, b < 256) :
    ∀ b ∈ memcpyTo buf off src, b < 256 := by
  induction src generalizing buf off with
  | nil => simpa [memcpyTo] using hbuf
  | cons x xs ih =>
    simp only [memcpyTo]
    apply ih
    · intro b hb
      rcases List.mem_or_eq_of_mem_set hb with h | h
      · exact hbuf b h
      · exact h ▸ hsrc x (List.mem_cons_self _ _)
    · exact fun b hb => hsrc b (List.mem_cons_of_mem _ hb)

theorem slice_memcpyTo (buf : List Nat) (off : Nat) (src : List Nat)
    (h : off + src.length ≤ buf.length) :
    ((memcpyTo buf off src).drop off).take src.length = src := by
  apply List.ext_getElem?
  intro i
  rw [List.getElem?_take]
  by_cases hi : i < src.length
  · rw [if_pos hi, List.getElem?_drop, memcpyTo_getElem?, if_pos (by omega)]
    congr 1
    omega
  · rw [if_neg hi]
    exact (List.getElem?_eq_none (by omega)).symm

theorem storeInteger_length (buf : List Nat) (off size v : Nat) :
    (storeInteger buf off size v).length = buf.length := by
  simp [storeInteger, memcpyTo_length]

theorem storeInteger_byte (buf : List Nat) (off size v : Nat) (hbuf : ∀ b ∈ buf, b < 256) :
    ∀ b ∈ storeInteger buf off size v, b < 256 :=
  memcpyTo_byte buf off _ hbuf (toBytesLE_byte size v)

theorem storeInteger_getElem?_outside (buf : List Nat) (off size v j : Nat)
    (hj : ¬ (off ≤ j ∧ j < off + size)) :
    (storeInteger buf off size v)[j]? = buf[j]? := by
  rw [storeInteger, memcpyTo_getElem?, toBytesLE_length, if_neg (by omega)]

theorem loadInteger_storeInteger (buf : List Nat) (off size v : Nat)
    (h : off + size ≤ buf.length) :
    loadInteger (storeInteger buf off size v) off size = v % 256 ^ size := by
  have hs := slice_memcpyTo buf off (toBytesLE size v) (by rw [toBytesLE_length]; exact h)
  rw [toBytesLE_length] at hs
  rw [loadInteger, storeInteger, hs, fromBytesLE_toBytesLE]

theorem loadInteger_lt (buf : List Nat) (off size : Nat) (hbuf : ∀ b ∈ buf, b < 256)
    (h : off + size ≤ buf.length) : loadInteger buf off size < 256 ^ size := by
  have hlen : ((buf.drop off).take size).length = size := by
    rw [List.length_take, List.length_drop]; omega
  have := fromBytesLE_lt ((buf.drop off).take size)
    (fun b hb => hbuf b (List.mem_of_mem_drop (List.mem_of_mem_take hb)))
  rwa [hlen] at this

theorem loadInteger_one (buf : List Nat) (j : Nat) : loadInteger buf j 1 = buf.getD j 0 := by
  rw [loadInteger, List.getD_eq_getElem?_getD]
  cases h : buf.drop j with
  | nil =>
    have : buf.length ≤ j := by simpa using h
    simp [fromBytesLE, List.getElem?_eq_none this]
  | cons b bs =>
    have : buf[j]? = some b := by
      have := List.getElem?_drop buf j 0
      rw [h] at this
      simpa using this.symm
    simp [fromBytesLE, this]

/-! ## Lemmas: refreshing the fields -/

theorem updateEntries_getElem? (count : Nat) (isNotUpdated : Nat → Bool)
    (newText : Nat → String) (entries : List NumberEdit) (j : Nat) :
    (updateEntries count isNotUpdated newText entries)[j]? =
      (entries[j]?).map (fun edit =>
        if j < count ∧ isNotUpdated j = false then { edit with text := newText j }
        else edit) := by
  induction count with
  | zero => simp [updateEntries]
  | succ n ih =>
    have hstep : updateEntries (n + 1) isNotUpdated newText entries =
        (if isNotUpdated n then updateEntries n isNotUpdated newText entries
         else setText (updateEntries n isNotUpdated newText entries) n (newText n)) := by
      simp [updateEntries, List.range_succ, List.foldl_append]
    rw [hstep]
    cases hn : isNotUpdated n with
    | true =>
      simp only [if_true, ih]
      cases entries[j]? with
      | none => rfl
      | some edit =>
        simp only [Option.map_some']
        by_cases hj : j = n
        · subst hj; simp [hn]
        · have : (j < n + 1) = (j < n) := by apply propext; omega
          simp [this]
    | false =>
      simp only [Bool.false_eq_true, if_false, setText, List.getElem?_modify, ih]
      cases entries[j]? with
      | none => rfl
      | some edit =>
        simp only [Option.map_some', Option.map_eq_map]
        by_cases hj : n = j
        · subst hj; simp [hn]
        · have : (j < n + 1) = (j < n) := by apply propext; omega
          simp [hj, this]

theorem updateEntries_length (count : Nat) (isNotUpdated : Nat → Bool)
    (newText : Nat → String) (entries : List NumberEdit) :
    (updateEntries count isNotUpdated newText entries).length = entries.length := by
  induction count with
  | zero => simp [updateEntries]
  | succ n ih =>
    have hstep : updateEntries (n + 1) isNotUpdated newText entries =
        (if isNotUpdated n then updateEntries n isNotUpdated newText entries
         else setText (updateEntries n isNotUpdated newText entries) n (newText n)) := by
      simp [updateEntries, List.range_succ, List.foldl_append]
    rw [hstep]
    split
    · exact ih
    · simp [setText, ih]

/-! ## Lemmas: digits -/

theorem digitValue_digitChar (k : Nat) (hk : k < 16) : digitValue (digitChar k) = some k := by
  interval_cases k <;> rfl

theorem digitChar_eq (k : Nat) (hk : k < 16) : digitChar k = Nat.digitChar k := by
  interval_cases k <;> rfl

theorem digitChar_plain (k : Nat) (hk : k < 16) :
    isSpace (digitChar k) = false ∧ digitChar k ≠ '+' ∧ digitChar k ≠ '-' ∧
      digitChar k ≠ 'x' ∧ digitChar k ≠ 'X' := by
  interval_cases k <;> decide

theorem digitChar_mem_hex (k : Nat) (hk : k < 16) : digitChar k ∈ "0123456789abcdef".data := by
  interval_cases k <;> decide

theorem qulltoaLoop_acc (base fuel l : Nat) (acc : List Char) :
    qulltoaLoop base fuel l acc = qulltoaLoop base fuel l [] ++ acc := by
  induction fuel generalizing l acc with
  | zero => simp [qulltoaLoop]
  | succ n ih =>
    simp only [qulltoaLoop]
    split
    · simp
    · rw [ih, ih (l / base) [digitChar (l % base)]]
      simp

theorem parseDigits_append (base : Nat) (xs ys : List Char) (acc : Nat) :
    parseDigits base (xs ++ ys) acc =
      (parseDigits base xs acc).bind (fun a => parseDigits base ys a) := by
  induction xs generalizing acc with
  | nil => simp [parseDigits]
  | cons c cs ih =>
    simp only [List.cons_append, parseDigits]
    cases digitValue c with
    | none => rfl
    | some dgt =>
      simp only
      split
      · exact ih _
      · rfl

theorem parseDigits_zeros (base k : Nat) (hb : 0 < base) (s : List Char) :
    parseDigits base (List.replicate k '0' ++ s) 0 = parseDigits base s 0 := by
  induction k with
  | zero => simp
  | succ n ih =>
    have h0 : digitValue '0' = some 0 := rfl
    simp only [List.replicate_succ, List.cons_append, parseDigits, h0, hb, if_true]
    simpa using ih

theorem parseDigits_qulltoaLoop (base fuel l : Nat) (hb : 2 ≤ base) (hb16 : base ≤ 16)
    (hl : l < base ^ fuel) :
    parseDigits base (qulltoaLoop base fuel l []) 0 = some l := by
  induction fuel generalizing l with
  | zero =>
    have : l = 0 := by simpa using hl
    simp [qulltoaLoop, parseDigits, this]
  | succ n ih =>
    simp only [qulltoaLoop]
    split
    · next h0 => simp [parseDigits, h0]
    · have hdiv : l / base < base ^ n := by
        apply Nat.div_lt_of_lt_mul
        rw [pow_succ'] at hl
        exact hl
      have hmod : l % base < base := Nat.mod_lt _ (by omega)
      rw [qulltoaLoop_acc, parseDigits_append, ih _ hdiv]
      simp only [Option.some_bind, parseDigits, digitValue_digitChar _ (by omega : l % base < 16),
        hmod, if_true]
      rw [Nat.div_add_mod']

theorem qulltoaLoop_digits (base fuel l : Nat) (hb : 0 < base) :
    ∀ c ∈ qulltoaLoop base fuel l [], ∃ k, k < base ∧ c = digitChar k := by
  induction fuel generalizing l with
  | zero => simp [qulltoaLoop]
  | succ n ih =>
    simp only [qulltoaLoop]
    split
    · simp
    · rw [qulltoaLoop_acc]
      intro c hc
      rcases List.mem_append.mp hc with h | h
      · exact ih _ c h
      · exact ⟨l % base, Nat.mod_lt _ hb, by simpa using h⟩

theorem qulltoaLoop_ne_nil (base fuel l : Nat) (hl : l ≠ 0) :
    qulltoaLoop base (fuel + 1) l [] ≠ [] := by
  simp only [qulltoaLoop, hl, if_false]
  rw [qulltoaLoop_acc]
  simp

theorem qulltoaLoop_eq_toDigitsCore (base : Nat) (hb : 2 ≤ base) (hb16 : base ≤ 16)
    (fuel1 fuel2 l : Nat) (acc : List Char) (hpos : 0 < l) (h1 : l < base ^ fuel1)
    (h2 : l < fuel2) :
    qulltoaLoop base fuel1 l acc = Nat.toDigitsCore base fuel2 l acc := by
  induction fuel1 generalizing fuel2 l acc with
  | zero => simp at h1; omega
  | succ n ih =>
    obtain ⟨m, rfl⟩ : ∃ m, fuel2 = m + 1 := ⟨fuel2 - 1, by omega⟩
    have hmod : l % base < 16 := lt_of_lt_of_le (Nat.mod_lt _ (by omega)) hb16
    simp only [qulltoaLoop, Nat.toDigitsCore, Nat.ne_of_gt hpos, if_false,
      digitChar_eq _ hmod]
    by_cases hq : l / base = 0
    · rw [if_pos hq, hq]
      cases n <;> simp [qulltoaLoop]
    · rw [if_neg hq]
      apply ih
      · exact Nat.pos_of_ne_zero hq
      · apply Nat.div_lt_of_lt_mul
        rw [pow_succ'] at h1
        exact h1
      · have : l / base < l := Nat.div_lt_self hpos (by omega)
        omega

theorem pow_64_le (base : Nat) (hb : 2 ≤ base) : 2 ^ 64 ≤ base ^ 64 :=
  Nat.pow_le_pow_left hb 64

theorem numStr_eq_toDigits (base l : Nat) (hb : 2 ≤ base) (hb16 : base ≤ 16)
    (hl : l < 2 ^ 64) : numStr base l = Nat.toDigits base l := by
  unfold numStr
  split
  · next h0 =>
    subst h0
    simp [Nat.toDigits, Nat.toDigitsCore, Nat.digitChar]
  · next h0 =>
    exact qulltoaLoop_eq_toDigitsCore base hb hb16 64 (l + 1) l [] (by omega)
      (lt_of_lt_of_le hl (pow_64_le base hb)) (by omega)

theorem numStr_plain (base l : Nat) (hb : 2 ≤ base) : PlainDigits base (numStr base l) := by
  unfold numStr
  split
  · exact ⟨by simp, fun c hc => ⟨0, by omega, by simpa [digitChar] using hc⟩⟩
  · next h0 => exact ⟨qulltoaLoop_ne_nil base 63 l h0, qulltoaLoop_digits base 64 l (by omega)⟩

theorem numStr_parse (base l : Nat) (hb : 2 ≤ base) (hb16 : base ≤ 16) (hl : l < 2 ^ 64) :
    parseDigits base (numStr base l) 0 = some l := by
  unfold numStr
  split
  · next h0 =>
    subst h0
    have h0 : digitValue '0' = some 0 := rfl
    simp [parseDigits, h0]
    omega
  · exact parseDigits_qulltoaLoop base 64 l hb hb16 (lt_of_lt_of_le hl (pow_64_le base hb))

theorem plainDigits_zeros (base k : Nat) (hb : 0 < base) (s : List Char)
    (hs : PlainDigits base s) : PlainDigits base (List.replicate k '0' ++ s) := by
  refine ⟨by simp [hs.1], ?_⟩
  intro c hc
  rcases List.mem_append.mp hc with h | h
  · exact ⟨0, hb, by rw [(List.mem_replicate.mp h).2]; rfl⟩
  · exact hs.2 c h

/-! ## Lemmas: parsing what was formatted -/

theorem dropWhile_isSpace_of_plain (s : List Char) (h : ∀ c ∈ s, isSpace c = false) :
    s.dropWhile isSpace = s := by
  cases s with
  | nil => rfl
  | cons c cs => simp [List.dropWhile_cons, h c (List.mem_cons_self _ _)]

theorem trimmed_of_plain (s : List Char) (h : ∀ c ∈ s, isSpace c = false) : trimmed s = s := by
  unfold trimmed
  rw [dropWhile_isSpace_of_plain s h,
    dropWhile_isSpace_of_plain s.reverse (fun c hc => h c (List.mem_reverse.mp hc)),
    List.reverse_reverse]

theorem plainDigits_no_space (base : Nat) (hb16 : base ≤ 16) (s : List Char)
    (hs : PlainDigits base s) : ∀ c ∈ s, isSpace c = false := by
  intro c hc
  obtain ⟨k, hk, rfl⟩ := hs.2 c hc
  exact (digitChar_plain k (by omega)).1

theorem skipHexMarker_of_plain (base : Nat) (hb16 : base ≤ 16) (s : List Char)
    (hs : PlainDigits base s) : skipHexMarker base s = s := by
  unfold skipHexMarker
  split
  · next x rest =>
    obtain ⟨k, hk, hx⟩ := hs.2 x (by simp)
    have := digitChar_plain k (by omega)
    rw [if_neg]
    rintro ⟨-, h | h⟩
    · exact this.2.2.2.1 (hx ▸ h)
    · exact this.2.2.2.2 (hx ▸ h)
  · rfl

theorem parseMagnitude_of_plain (base : Nat) (hb16 : base ≤ 16) (s : List Char)
    (hs : PlainDigits base s) : parseMagnitude base s = parseDigits base s 0 := by
  unfold parseMagnitude
  rw [skipHexMarker_of_plain base hb16 s hs]
  cases s with
  | nil => exact absurd rfl hs.1
  | cons c cs => rfl

theorem toULongLong_of_plain (base : Nat) (hb16 : base ≤ 16) (s : List Char)
    (hs : PlainDigits base s) (v : Nat) (hv : parseDigits base s 0 = some v)
    (h64 : v < 2 ^ 64) : toULongLong (String.mk s) base = (true, v) := by
  unfold toULongLong
  simp only [trimmed_of_plain s (plainDigits_no_space base hb16 s hs)]
  have hbody : skipPlus s = s := by
    unfold skipPlus
    split
    · next rest =>
      obtain ⟨k, hk, hx⟩ := hs.2 '+' (by simp)
      exact absurd hx.symm (digitChar_plain k (by omega)).2.1
    · rfl
  rw [hbody, parseMagnitude_of_plain base hb16 s hs, hv]
  exact if_pos h64

theorem toLongLong_of_plain (base : Nat) (hb16 : base ≤ 16) (s : List Char)
    (hs : PlainDigits base s) (v : Nat) (hv : parseDigits base s 0 = some v)
    (h63 : v < 2 ^ 63) : toLongLong (String.mk s) base = (true, (v : Int)) := by
  unfold toLongLong
  simp only [trimmed_of_plain s (plainDigits_no_space base hb16 s hs)]
  split
  · next rest =>
    obtain ⟨k, hk, hx⟩ := hs.2 '-' (by simp)
    exact absurd hx.symm (digitChar_plain k (by omega)).2.2.1
  · next rest =>
    obtain ⟨k, hk, hx⟩ := hs.2 '+' (by simp)
    exact absurd hx.symm (digitChar_plain k (by omega)).2.1
  · rw [parseMagnitude_of_plain base hb16 s hs, hv]
    exact if_pos h63

theorem toLongLong_of_minus (base : Nat) (hb16 : base ≤ 16) (s : List Char)
    (hs : PlainDigits base s) (v : Nat) (hv : parseDigits base s 0 = some v)
    (h63 : v ≤ 2 ^ 63) : toLongLong (String.mk ('-' :: s)) base = (true, - (v : Int)) := by
  unfold toLongLong
  have hplain : ∀ c ∈ '-' :: s, isSpace c = false := by
    intro c hc
    rcases List.mem_cons.mp hc with rfl | h
    · rfl
    · exact plainDigits_no_space base hb16 s hs c h
  simp only [trimmed_of_plain _ hplain]
  rw [parseMagnitude_of_plain base hb16 s hs, hv]
  exact if_pos h63

/-! ## Lemmas: the text `formatInteger` sets -/

theorem unsLongLongToString_padded (a w base : Nat) :
    unsLongLongToString a base w true =
      List.replicate (w - (numStr base a).length) '0' ++ numStr base a := by
  simp only [unsLongLongToString, numStr, if_true]

theorem unsLongLongToString_unpadded (a w base : Nat) :
    unsLongLongToString a base w false = numStr base a := by
  simp only [unsLongLongToString, numStr, Bool.false_eq_true, if_false]

theorem longLongToString_hex (a w : Nat) (ha : a < 2 ^ 64) :
    longLongToString (a : Int) 16 w true =
      List.replicate (w - (numStr 16 a).length) '0' ++ numStr 16 a := by
  have hmag : (((a : Int) % 2 ^ 64).toNat) = a := by omega
  simp only [longLongToString, numStr, hmag]
  simp

theorem longLongToString_nonneg (a : Nat) :
    longLongToString (a : Int) 10 0 false = numStr 10 a := by
  have hneg : ¬ ((a : Int) < 0) := by omega
  simp [longLongToString, numStr, hneg]

theorem longLongToString_neg (a : Int) (ha : a < 0) :
    longLongToString a 10 0 false = '-' :: numStr 10 a.natAbs := by
  simp [longLongToString, numStr, ha]

theorem padding_done (w : Nat) (s : List Char) :
    w - (List.replicate (w - s.length) '0' ++ s).length = 0 := by
  simp only [List.length_append, List.length_replicate]
  omega

theorem argULongLong_padded (a w base : Nat) :
    argULongLong a w base '0' =
      String.mk (List.replicate (w - (numStr base a).length) '0' ++ numStr base a) := by
  have hz : ('0' == '0') = true := by decide
  unfold argULongLong
  simp only [hz, unsLongLongToString_padded, padding_done, List.replicate_zero,
    List.nil_append]

theorem argULongLong_unpadded (a base : Nat) :
    argULongLong a 0 base ' ' = String.mk (numStr base a) := by
  have hz : (' ' == '0') = false := by decide
  unfold argULongLong
  simp only [hz, unsLongLongToString_unpadded, Nat.zero_sub, List.replicate_zero,
    List.nil_append]

theorem argLongLong_hex (a w : Nat) (ha : a < 2 ^ 64) :
    argLongLong (a : Int) w 16 '0' =
      String.mk (List.replicate (w - (numStr 16 a).length) '0' ++ numStr 16 a) := by
  have hz : ('0' == '0') = true := by decide
  unfold argLongLong
  simp only [hz, longLongToString_hex a w ha, padding_done, List.replicate_zero,
    List.nil_append]

theorem argLongLong_nonneg (a : Nat) :
    argLongLong (a : Int) 0 10 ' ' = String.mk (numStr 10 a) := by
  have hz : (' ' == '0') = false := by decide
  unfold argLongLong
  simp only [hz, longLongToString_nonneg, Nat.zero_sub, List.replicate_zero, List.nil_append]

theorem argLongLong_neg (a : Int) (ha : a < 0) :
    argLongLong a 0 10 ' ' = String.mk ('-' :: numStr 10 a.natAbs) := by
  have hz : (' ' == '0') = false := by decide
  unfold argLongLong
  simp only [hz, longLongToString_neg a ha, Nat.zero_sub, List.replicate_zero, List.nil_append]

theorem formatInteger_Hex (size v : Nat) (hv : v < 2 ^ 64) :
    formatInteger Mode.Hex size v =
      String.mk (List.replicate (2 * size - (numStr 16 v).length) '0' ++ numStr 16 v) := by
  unfold formatInteger
  simp only
  split
  · exact argLongLong_hex v _ hv
  · exact argULongLong_padded v _ 16

theorem formatInteger_Unsigned (size v : Nat) :
    formatInteger Mode.Unsigned size v = String.mk (numStr 10 v) := by
  unfold formatInteger
  simp only
  split
  · exact argLongLong_nonneg v
  · exact argULongLong_unpadded v 10

theorem formatInteger_Signed (size v : Nat) :
    formatInteger Mode.Signed size v =
      if toSigned size v < 0 then String.mk ('-' :: numStr 10 (toSigned size v).natAbs)
      else String.mk (numStr 10 (toSigned size v).natAbs) := by
  unfold formatInteger
  simp only
  split
  · next h => exact argLongLong_neg _ h
  · next h =>
    have : toSigned size v = ((toSigned size v).natAbs : Int) := by omega
    rw [this, argLongLong_nonneg, ← this]

theorem toSigned_cases (size v : Nat) :
    (v < 2 ^ (8 * size - 1) ∧ toSigned size v = (v : Int)) ∨
      (2 ^ (8 * size - 1) ≤ v ∧ toSigned size v = (v : Int) - 2 ^ (8 * size)) := by
  unfold toSigned
  split
  · next h => exact Or.inl ⟨h, rfl⟩
  · next h => exact Or.inr ⟨by omega, rfl⟩

theorem readInteger_formatInteger (m : Mode) (size v : Nat) (hs : IsIntegerSize size)
    (hv : v < 2 ^ (8 * size)) :
    readIntegerOk m (formatInteger m size v) = true ∧
      readInteger m (formatInteger m size v) % 2 ^ (8 * size) = v := by
  have hv64 : v < 2 ^ 64 := by
    rcases hs with rfl | rfl | rfl | rfl <;> norm_num at hv ⊢ <;> omega
  cases m with
  | Hex =>
    have hp := plainDigits_zeros 16 (2 * size - (numStr 16 v).length) (by norm_num) _
      (numStr_plain 16 v (by norm_num))
    have hparse : parseDigits 16
        (List.replicate (2 * size - (numStr 16 v).length) '0' ++ numStr 16 v) 0 = some v := by
      rw [parseDigits_zeros 16 _ (by norm_num), numStr_parse 16 v (by norm_num) (by norm_num) hv64]
    have h := toULongLong_of_plain 16 (by norm_num) _ hp v hparse hv64
    simp only [readIntegerOk, readInteger, formatInteger_Hex size v hv64, h, true_and]
    rw [Nat.mod_eq_of_lt hv64, Nat.mod_eq_of_lt hv]
  | Unsigned =>
    have h := toULongLong_of_plain 10 (by norm_num) _ (numStr_plain 10 v (by norm_num)) v
      (numStr_parse 10 v (by norm_num) (by norm_num) hv64) hv64
    simp only [readIntegerOk, readInteger, formatInteger_Unsigned size v, h, true_and]
    rw [Nat.mod_eq_of_lt hv64, Nat.mod_eq_of_lt hv]
  | Signed =>
    rw [formatInteger_Signed]
    have hc := toSigned_cases size v
    generalize toSigned size v = x at hc ⊢
    by_cases hneg : x < 0
    · rw [if_pos hneg]
      have habs : x.natAbs ≤ 2 ^ 63 := by
        rcases hs with rfl | rfl | rfl | rfl <;> norm_num at hv hc ⊢ <;> omega
      have h := toLongLong_of_minus 10 (by norm_num) _
        (numStr_plain 10 x.natAbs (by norm_num)) _
        (numStr_parse 10 _ (by norm_num) (by norm_num) (by omega)) habs
      simp only [readIntegerOk, readInteger, h, true_and]
      rcases hs with rfl | rfl | rfl | rfl <;>
        simp only [Nat.reduceMul, Nat.reduceSub] at hv hc ⊢ <;> omega
    · rw [if_neg hneg]
      have habs : x.natAbs < 2 ^ 63 := by
        rcases hs with rfl | rfl | rfl | rfl <;> norm_num at hv hc ⊢ <;> omega
      have h := toLongLong_of_plain 10 (by norm_num) _
        (numStr_plain 10 x.natAbs (by norm_num)) _
        (numStr_parse 10 _ (by norm_num) (by norm_num) (by omega)) habs
      simp only [readIntegerOk, readInteger, h, true_and]
      rcases hs with rfl | rfl | rfl | rfl <;>
        simp only [Nat.reduceMul, Nat.reduceSub] at hv hc ⊢ <;> omega

/-! ## Lemmas: the dialog -/

theorem refreshedText_integer (env : Env) (d : Dialog) (e : Entries) (j : Nat)
    (he : e.isInteger = true) :
    refreshedText env d e j =
      formatInteger d.mode e.bytesPerEntry
        (loadInteger d.value_ (j * e.bytesPerEntry) e.bytesPerEntry) := by
  cases e <;> simp [Entries.isInteger] at he <;>
    simp [refreshedText, Entries.bytesPerEntry, loadInteger_one]

theorem text_ite_not (c : Prop) [Decidable c] (a b : NumberEdit) :
    (if ¬ c then a else b).text = if c then b.text else a.text := by
  by_cases h : c <;> simp [h]

theorem updateAllEntriesExcept_text (env : Env) (notUpdated : Option (Entries × Nat))
    (d : Dialog) (e : Entries) (j : Nat) (hlen : (d.entries e).length = e.count)
    (hj : j < e.count) :
    (updateAllEntriesExcept env notUpdated d).text e j =
      if notUpdated = some (e, j) then d.text e j else refreshedText env d e j := by
  have hjl : j < (d.entries e).length := hlen ▸ hj
  obtain ⟨edit, hedit⟩ : ∃ edit, (d.entries e)[j]? = some edit :=
    ⟨(d.entries e)[j], List.getElem?_eq_getElem hjl⟩
  cases e <;>
    simp only [Dialog.entries, Entries.count, Entries.bytesPerEntry, Nat.div_one]
      at hlen hj hedit <;>
    simp only [updateAllEntriesExcept, Dialog.text, Dialog.entries, updateEntries_getElem?,
      hedit, Option.map_some', refreshedText, hlen, hj, true_and, decide_eq_false_iff_not] <;>
    exact text_ite_not _ _ _

theorem updateAllEntriesExcept_entries_length (env : Env)
    (notUpdated : Option (Entries × Nat)) (d : Dialog) (e : Entries) :
    ((updateAllEntriesExcept env notUpdated d).entries e).length = (d.entries e).length := by
  cases e <;> simp [updateAllEntriesExcept, Dialog.entries, updateEntries_length]

theorem updateAllEntriesExcept_WF (env : Env) (notUpdated : Option (Entries × Nat))
    (d : Dialog) (h : d.WF) : (updateAllEntriesExcept env notUpdated d).WF :=
  ⟨h.value_length, h.value_byte, fun e => by
    rw [updateAllEntriesExcept_entries_length]; exact h.entries_length e⟩

theorem pow_256 (size : Nat) : 256 ^ size = 2 ^ (8 * size) := by
  rw [pow_mul]; norm_num

theorem integer_size (e : Entries) (he : e.isInteger = true) :
    IsIntegerSize e.bytesPerEntry := by
  cases e <;> simp [Entries.isInteger] at he <;> simp [IsIntegerSize, Entries.bytesPerEntry]

theorem slot_in_buffer (e : Entries) (j : Nat) (hj : j < e.count) :
    j * e.bytesPerEntry + e.bytesPerEntry ≤ numBytes := by
  cases e <;> simp only [Entries.count, Entries.bytesPerEntry, numBytes] at hj ⊢ <;> omega

theorem editedSlot_integer (env : Env) (e : Entries) (k : Nat) (d : Dialog)
    (he : e.isInteger = true) :
    editedSlot env e k d = onIntegerEdited env e.bytesPerEntry e k d := by
  cases e <;> simp [Entries.isInteger] at he <;> rfl

theorem onIntegerEdited_WF (env : Env) (size : Nat) (e : Entries) (k : Nat) (d : Dialog)
    (h : d.WF) : (onIntegerEdited env size e k d).WF := by
  apply updateAllEntriesExcept_WF
  exact ⟨by simp [storeInteger_length, h.value_length],
    storeInteger_byte _ _ _ _ h.value_byte, h.entries_length⟩

theorem withText_text_self (d : Dialog) (e : Entries) (k : Nat) (t : String)
    (hk : k < (d.entries e).length) : (d.withText e k t).text e k = t := by
  obtain ⟨edit, hedit⟩ : ∃ edit, (d.entries e)[k]? = some edit :=
    ⟨(d.entries e)[k], List.getElem?_eq_getElem hk⟩
  cases e <;> simp only [Dialog.entries] at hedit <;>
    simp [Dialog.withText, Dialog.text, Dialog.entries, setText, List.getElem?_modify, hedit]

theorem withText_value (d : Dialog) (e : Entries) (k : Nat) (t : String) :
    (d.withText e k t).value_ = d.value_ ∧ (d.withText e k t).mode = d.mode ∧
      (d.withText e k t).reg = d.reg := by
  cases e <;> exact ⟨rfl, rfl, rfl⟩

theorem withText_WF (d : Dialog) (e : Entries) (k : Nat) (t : String) (h : d.WF) :
    (d.withText e k t).WF := by
  refine ⟨?_, ?_, ?_⟩
  · rw [(withText_value d e k t).1]; exact h.value_length
  · rw [(withText_value d e k t).1]; exact h.value_byte
  · intro e'
    have := h.entries_length e'
    cases e <;> cases e' <;>
      simpa [Dialog.withText, Dialog.entries, setText] using this

theorem onIntegerEdited_slice (env : Env) (e : Entries) (k : Nat) (d : Dialog) (hwf : d.WF)
    (hk : k < e.count) :
    (onIntegerEdited env e.bytesPerEntry e k d).slice e k =
      readInteger d.mode (d.text e k) % 2 ^ (8 * e.bytesPerEntry) := by
  have hb := slot_in_buffer e k hk
  show loadInteger (storeInteger d.value_ _ _ _) _ _ = _
  rw [loadInteger_storeInteger _ _ _ _ (by rw [hwf.value_length]; exact hb), pow_256,
    Nat.mod_mod]

theorem onIntegerEdited_text (env : Env) (e : Entries) (k : Nat) (d : Dialog) (hwf : d.WF)
    (e' : Entries) (j : Nat) (he' : e'.isInteger = true) (hj : j < e'.count) :
    (onIntegerEdited env e.bytesPerEntry e k d).text e' j =
      if (e', j) = (e, k) then d.text e' j
      else formatInteger d.mode e'.bytesPerEntry
        ((onIntegerEdited env e.bytesPerEntry e k d).slice e' j) := by
  have hrefresh := updateAllEntriesExcept_text env (some (e, k))
    { d with value_ := (storeInteger d.value_ (k * e.bytesPerEntry) e.bytesPerEntry
        (readInteger d.mode (d.text e k) % 2 ^ (8 * e.bytesPerEntry))) }
    e' j (hwf.entries_length e') hj
  show (updateAllEntriesExcept env (some (e, k)) _).text e' j = _
  rw [hrefresh]
  by_cases h : (e', j) = (e, k)
  · rw [if_pos h, if_pos (by rw [h])]
    rfl
  · rw [if_neg h, if_neg (fun hc => h (Option.some.inj hc).symm),
      refreshedText_integer _ _ _ _ he']
    rfl

theorem typed_eq_shown (mode : Mode) (size : Nat) (t : String) (hs : IsIntegerSize size)
    (hrange : InRange mode size (typedNumber mode t)) :
    typedNumber mode t = shownNumber mode size (readInteger mode t % 2 ^ (8 * size)) := by
  cases mode with
  | Hex =>
    simp only [InRange, typedNumber, shownNumber, readInteger] at hrange ⊢
    generalize (toULongLong t 16).2 = u at hrange ⊢
    rcases hs with rfl | rfl | rfl | rfl <;> simp only [Nat.reduceMul] at hrange ⊢ <;> omega
  | Unsigned =>
    simp only [InRange, typedNumber, shownNumber, readInteger] at hrange ⊢
    generalize (toULongLong t 10).2 = u at hrange ⊢
    rcases hs with rfl | rfl | rfl | rfl <;> simp only [Nat.reduceMul] at hrange ⊢ <;> omega
  | Signed =>
    simp only [InRange, typedNumber, shownNumber, readInteger] at hrange ⊢
    generalize (toLongLong t 10).2 = x at hrange ⊢
    have hc := toSigned_cases size ((x % 2 ^ 64).toNat % 2 ^ (8 * size))
    generalize toSigned size ((x % 2 ^ 64).toNat % 2 ^ (8 * size)) = y at hc ⊢
    rcases hs with rfl | rfl | rfl | rfl <;>
      simp only [Nat.reduceMul, Nat.reduceSub] at hrange hc ⊢ <;> omega

/-! ## Theorems -/

/-- C1 (cross-view consistency): when the user changes the text of an integer field to a text
that converts successfully and within the range of the field, then afterwards every other
integer field shows `formatInteger` of its own little-endian slice of the buffer, the edited
field still shows the text typed, the number typed is the number its slice stands for, and the
text of every integer field reads back (in the current mode, cut to the width of the field) as
its own slice. -/
theorem cross_view_consistency (env : Env) (d : Dialog) (e : Entries) (k : Nat) (t : String)
    (hwf : d.WF) (he : e.isInteger = true) (hk : k < e.count)
    (_hok : readIntegerOk d.mode t = true)
    (hrange : InRange d.mode e.bytesPerEntry (typedNumber d.mode t)) :
    (textEdited env e k t d).mode = d.mode ∧
    (∀ e' j, e'.isInteger = true → j < e'.count → (e', j) ≠ (e, k) →
      (textEdited env e k t d).text e' j =
        formatInteger d.mode e'.bytesPerEntry ((textEdited env e k t d).slice e' j)) ∧
    (textEdited env e k t d).text e k = t ∧
    typedNumber d.mode t =
      shownNumber d.mode e.bytesPerEntry ((textEdited env e k t d).slice e k) ∧
    (∀ e' j, e'.isInteger = true → j < e'.count →
      readInteger d.mode ((textEdited env e k t d).text e' j) % 2 ^ (8 * e'.bytesPerEntry) =
        (textEdited env e k t d).slice e' j) := by
  have hwf1 : (d.withText e k t).WF := withText_WF d e k t hwf
  have hm1 : (d.withText e k t).mode = d.mode := (withText_value d e k t).2.1
  have ht1 : (d.withText e k t).text e k = t :=
    withText_text_self d e k t (by rw [hwf.entries_length]; exact hk)
  have hwf2 := onIntegerEdited_WF env e.bytesPerEntry e k _ hwf1
  have hslice := onIntegerEdited_slice env e k _ hwf1 hk
  rw [hm1, ht1] at hslice
  have htext := fun e' j he' hj => onIntegerEdited_text env e k _ hwf1 e' j he' hj
  simp only [hm1] at htext
  unfold textEdited
  rw [editedSlot_integer env e k _ he]
  refine ⟨hm1, ?_, ?_, ?_, ?_⟩
  · intro e' j he' hj hne
    rw [htext e' j he' hj, if_neg hne]
  · rw [htext e k he hk, if_pos rfl, ht1]
  · rw [hslice]
    exact typed_eq_shown d.mode _ t (integer_size e he) hrange
  · intro e' j he' hj
    rw [htext e' j he' hj]
    by_cases h : (e', j) = (e, k)
    · obtain ⟨rfl, rfl⟩ := Prod.mk.inj h
      rw [if_pos rfl, ht1, hslice]
    · rw [if_neg h]
      refine (readInteger_formatInteger d.mode _ _ (integer_size e' he') ?_).2
      rw [← pow_256]
      exact loadInteger_lt _ _ _ hwf2.value_byte
        (by rw [hwf2.value_length]; exact slot_in_buffer e' j hj)

theorem setValidator_length (entries : List NumberEdit) (v : Validator) :
    (setValidator entries v).length = entries.length := by
  simp [setValidator]

theorem onHexToggled_WF (env : Env) (checked : Bool) (d : Dialog) (h : d.WF) :
    (onHexToggled env checked d).WF := by
  unfold onHexToggled
  split
  · apply updateAllEntriesExcept_WF
    refine ⟨h.value_length, h.value_byte, fun e => ?_⟩
    have := h.entries_length e
    cases e <;> simpa [Dialog.entries, setValidator_length] using this
  · exact h

theorem onSignedToggled_WF (env : Env) (checked : Bool) (d : Dialog) (h : d.WF) :
    (onSignedToggled env checked d).WF := by
  unfold onSignedToggled
  split
  · apply updateAllEntriesExcept_WF
    refine ⟨h.value_length, h.value_byte, fun e => ?_⟩
    have := h.entries_length e
    cases e <;> simpa [Dialog.entries, setValidator_length] using this
  · exact h

theorem onUnsignedToggled_WF (env : Env) (checked : Bool) (d : Dialog) (h : d.WF) :
    (onUnsignedToggled env checked d).WF := by
  unfold onUnsignedToggled
  split
  · apply updateAllEntriesExcept_WF
    refine ⟨h.value_length, h.value_byte, fun e => ?_⟩
    have := h.entries_length e
    cases e <;> simpa [Dialog.entries, setValidator_length] using this
  · exact h

theorem construct_WF (env : Env) (initial : List Nat) (initialReg : Register)
    (hlen : initial.length = numBytes) (hbyte : ∀ b ∈ initial, b < 256) :
    (construct env initial initialReg).WF := by
  apply onHexToggled_WF
  refine ⟨hlen, hbyte, fun e => ?_⟩
  cases e <;> simp [Dialog.entries, setupEntries]

theorem markMemory_byte (env : Env) (buf : List Nat) : ∀ b ∈ markMemory env buf, b < 256 := by
  intro b hb
  simp only [markMemory, List.mem_map] at hb
  obtain ⟨i, -, rfl⟩ := hb
  exact Nat.mod_lt _ (by norm_num)

theorem Register.value_byte (r : Register) (size : Nat) : ∀ b ∈ r.value size, b < 256 := by
  intro b hb
  simp only [Register.value, List.mem_map] at hb
  obtain ⟨i, -, rfl⟩ := hb
  exact Nat.mod_lt _ (by norm_num)

theorem set_value_WF (env : Env) (newReg : Register) (d : Dialog) (h : d.WF) :
    (set_value env newReg d).WF := by
  have hmark : (markMemory env d.value_).length = numBytes := by
    simp [markMemory, h.value_length]
  unfold set_value
  apply updateAllEntriesExcept_WF
  refine ⟨?_, ?_, h.entries_length⟩
  · dsimp only
    split_ifs <;> simp only [memcpyTo_length, hmark]
  · dsimp only
    split_ifs
    · exact memcpyTo_byte _ _ _ (markMemory_byte env _) (Register.value_byte _ _)
    · exact memcpyTo_byte _ _ _ (markMemory_byte env _) (Register.value_byte _ _)
    · exact memcpyTo_byte _ _ _ (markMemory_byte env _) (Register.value_byte _ _)
    · exact markMemory_byte env _

theorem textEdited_WF (env : Env) (e : Entries) (k : Nat) (t : String) (d : Dialog)
    (h : d.WF) : (textEdited env e k t d).WF := by
  have h1 := withText_WF d e k t h
  unfold textEdited
  cases e
  · exact onIntegerEdited_WF env _ _ _ _ h1
  · exact onIntegerEdited_WF env _ _ _ _ h1
  · exact onIntegerEdited_WF env _ _ _ _ h1
  · exact onIntegerEdited_WF env _ _ _ _ h1
  · show (onFloatEdited env 4 env.readFloat32 .floats32 k _).WF
    unfold onFloatEdited
    split
    · apply updateAllEntriesExcept_WF
      exact ⟨by simp [storeInteger_length, h1.value_length],
        storeInteger_byte _ _ _ _ h1.value_byte, h1.entries_length⟩
    · exact h1
  · show (onFloatEdited env 8 env.readFloat64 .floats64 k _).WF
    unfold onFloatEdited
    split
    · apply updateAllEntriesExcept_WF
      exact ⟨by simp [storeInteger_length, h1.value_length],
        storeInteger_byte _ _ _ _ h1.value_byte, h1.entries_length⟩
    · exact h1

theorem xmmZeroDialog_WF : xmmZeroDialog.WF :=
  set_value_WF _ _ _ (construct_WF _ _ _ (by decide) (by decide))

/-- Witness of C1: the doubleword field 0 of the dialog loaded with a zero XMM register is
changed to `DEADBEEF` in `Hex` mode. -/
theorem cross_view_consistency_witness :
    (xmmZeroDialog.WF ∧ Entries.dwords.isInteger = true ∧ 0 < Entries.dwords.count ∧
      readIntegerOk xmmZeroDialog.mode "DEADBEEF" = true ∧
      InRange xmmZeroDialog.mode Entries.dwords.bytesPerEntry
        (typedNumber xmmZeroDialog.mode "DEADBEEF")) ∧
    ((textEdited sampleEnv .dwords 0 "DEADBEEF" xmmZeroDialog).mode = xmmZeroDialog.mode ∧
    (∀ e' j, e'.isInteger = true → j < e'.count → (e', j) ≠ (Entries.dwords, 0) →
      (textEdited sampleEnv .dwords 0 "DEADBEEF" xmmZeroDialog).text e' j =
        formatInteger xmmZeroDialog.mode e'.bytesPerEntry
          ((textEdited sampleEnv .dwords 0 "DEADBEEF" xmmZeroDialog).slice e' j)) ∧
    (textEdited sampleEnv .dwords 0 "DEADBEEF" xmmZeroDialog).text .dwords 0 = "DEADBEEF" ∧
    typedNumber xmmZeroDialog.mode "DEADBEEF" =
      shownNumber xmmZeroDialog.mode Entries.dwords.bytesPerEntry
        ((textEdited sampleEnv .dwords 0 "DEADBEEF" xmmZeroDialog).slice .dwords 0) ∧
    (∀ e' j, e'.isInteger = true → j < e'.count →
      readInteger xmmZeroDialog.mode
          ((textEdited sampleEnv .dwords 0 "DEADBEEF" xmmZeroDialog).text e' j) %
          2 ^ (8 * e'.bytesPerEntry) =
        (textEdited sampleEnv .dwords 0 "DEADBEEF" xmmZeroDialog).slice e' j)) :=
  ⟨⟨xmmZeroDialog_WF, rfl, by decide, by decide, by decide⟩,
    cross_view_consistency sampleEnv xmmZeroDialog .dwords 0 "DEADBEEF" xmmZeroDialog_WF rfl
      (by decide) (by decide) (by decide)⟩

theorem toBytesLE_fromBytesLE (l : List Nat) (h : ∀ b ∈ l, b < 256) :
    toBytesLE l.length (fromBytesLE l) = l := by
  induction l with
  | nil => rfl
  | cons b bs ih =>
    have hb : b < 256 := h b (List.mem_cons_self _ _)
    have hbs := ih (fun x hx => h x (List.mem_cons_of_mem _ hx))
    simp only [List.length_cons, toBytesLE, fromBytesLE]
    rw [show (b + 256 * fromBytesLE bs) % 256 = b by omega,
      show (b + 256 * fromBytesLE bs) / 256 = fromBytesLE bs by omega, hbs]

/-- C2 (round trip): for every mode, every integer width and every value of that width, the
text `formatInteger` produces is converted successfully by `readInteger` in the same mode,
and the number read, cut to the width as `onIntegerEdited` does, is the value; so for a slice
of a buffer, the bytes written back are the bytes of the slice. -/
theorem round_trip (m : Mode) (size v : Nat) (hs : IsIntegerSize size)
    (hv : v < 2 ^ (8 * size)) :
    readIntegerOk m (formatInteger m size v) = true ∧
    readInteger m (formatInteger m size v) % 2 ^ (8 * size) = v ∧
    (∀ (buf : List Nat) (off : Nat), (∀ b ∈ buf, b < 256) → off + size ≤ buf.length →
      toBytesLE size
          (readInteger m (formatInteger m size (loadInteger buf off size)) % 2 ^ (8 * size)) =
        (buf.drop off).take size) := by
  refine ⟨(readInteger_formatInteger m size v hs hv).1,
    (readInteger_formatInteger m size v hs hv).2, ?_⟩
  intro buf off hbuf hoff
  have hlt := loadInteger_lt buf off size hbuf hoff
  rw [pow_256] at hlt
  rw [(readInteger_formatInteger m size _ hs hlt).2]
  have hlen : ((buf.drop off).take size).length = size := by
    rw [List.length_take, List.length_drop]; omega
  have := toBytesLE_fromBytesLE ((buf.drop off).take size)
    (fun b hb => hbuf b (List.mem_of_mem_drop (List.mem_of_mem_take hb)))
  rwa [hlen] at this

/-- Witness of C2: the word `0xBEEF` in `Signed` mode. -/
theorem round_trip_witness :
    (IsIntegerSize 2 ∧ 0xbeef < 2 ^ (8 * 2)) ∧
    (readIntegerOk Mode.Signed (formatInteger Mode.Signed 2 0xbeef) = true ∧
    readInteger Mode.Signed (formatInteger Mode.Signed 2 0xbeef) % 2 ^ (8 * 2) = 0xbeef ∧
    (∀ (buf : List Nat) (off : Nat), (∀ b ∈ buf, b < 256) → off + 2 ≤ buf.length →
      toBytesLE 2
          (readInteger Mode.Signed (formatInteger Mode.Signed 2 (loadInteger buf off 2)) %
            2 ^ (8 * 2)) =
        (buf.drop off).take 2)) :=
  ⟨⟨by decide, by decide⟩, round_trip Mode.Signed 2 0xbeef (by decide) (by decide)⟩

/-- C4 (mode switch purity): for every state and every value of `checked`, each of
`onHexToggled`, `onSignedToggled` and `onUnsignedToggled` leaves the buffer `value_` as it
is, so `value()` returns the same register before and after. -/
theorem mode_switch_purity (env : Env) (d : Dialog) (checked : Bool) :
    (onHexToggled env checked d).value_ = d.value_ ∧
    (onSignedToggled env checked d).value_ = d.value_ ∧
    (onUnsignedToggled env checked d).value_ = d.value_ ∧
    value (onHexToggled env checked d) = value d ∧
    value (onSignedToggled env checked d) = value d ∧
    value (onUnsignedToggled env checked d) = value d := by
  refine ⟨?_, ?_, ?_, ?_, ?_, ?_⟩ <;>
    simp only [onHexToggled, onSignedToggled, onUnsignedToggled] <;> split <;> rfl

theorem qulltoaLoop_length_le (base fuel l n : Nat) (hl : l < base ^ n) :
    (qulltoaLoop base fuel l []).length ≤ n := by
  induction fuel generalizing l n with
  | zero => simp [qulltoaLoop]
  | succ f ih =>
    simp only [qulltoaLoop]
    split
    · simp
    · next h0 =>
      obtain ⟨m, rfl⟩ : ∃ m, n = m + 1 := by
        cases n with
        | zero => simp at hl; omega
        | succ m => exact ⟨m, rfl⟩
      have hdiv : l / base < base ^ m := by
        apply Nat.div_lt_of_lt_mul
        rw [pow_succ'] at hl
        exact hl
      rw [qulltoaLoop_acc]
      simpa using ih _ _ hdiv

theorem numStr_hex_length (size v : Nat) (hs : 1 ≤ size) (hv : v < 2 ^ (8 * size)) :
    (numStr 16 v).length ≤ 2 * size := by
  unfold numStr
  split
  · simp; omega
  · apply qulltoaLoop_length_le
    have : (16 : Nat) ^ (2 * size) = 2 ^ (8 * size) := by
      rw [show (16 : Nat) = 2 ^ 4 by norm_num, ← pow_mul]
      congr 1
      omega
    rw [this]
    exact hv

theorem integerSize_bound (size v : Nat) (hs : IsIntegerSize size) (hv : v < 2 ^ (8 * size)) :
    1 ≤ size ∧ v < 2 ^ 64 := by
  rcases hs with rfl | rfl | rfl | rfl <;> simp only [Nat.reduceMul] at hv <;> omega

/-- C8 (hex formatting policy): for every integer width and every value of that width,
`formatInteger` in `Hex` mode sets a text of exactly `2 * size` characters, all of them among
`0123456789abcdef` (letters in lower case), made of the hexadecimal digits of the value with
zeros in front and nothing else, whose value in base 16 is the value formatted. -/
theorem hex_format (size v : Nat) (hs : IsIntegerSize size) (hv : v < 2 ^ (8 * size)) :
    (formatInteger Mode.Hex size v).length = 2 * size ∧
    (∀ c ∈ (formatInteger Mode.Hex size v).data, c ∈ "0123456789abcdef".data) ∧
    (formatInteger Mode.Hex size v).data =
      List.replicate (2 * size - (Nat.toDigits 16 v).length) '0' ++ Nat.toDigits 16 v ∧
    parseDigits 16 (formatInteger Mode.Hex size v).data 0 = some v := by
  obtain ⟨h1, h64⟩ := integerSize_bound size v hs hv
  have hlen := numStr_hex_length size v h1 hv
  have hplain := plainDigits_zeros 16 (2 * size - (numStr 16 v).length) (by norm_num) _
    (numStr_plain 16 v (by norm_num))
  rw [formatInteger_Hex size v h64]
  refine ⟨?_, ?_, ?_, ?_⟩
  · show (List.replicate _ '0' ++ numStr 16 v).length = 2 * size
    rw [List.length_append, List.length_replicate]
    omega
  · intro c hc
    obtain ⟨k, hk, rfl⟩ := hplain.2 c hc
    exact digitChar_mem_hex k hk
  · show List.replicate _ '0' ++ numStr 16 v = _
    rw [numStr_eq_toDigits 16 v (by norm_num) (by norm_num) h64]
  · show parseDigits 16 (List.replicate _ '0' ++ numStr 16 v) 0 = some v
    rw [parseDigits_zeros 16 _ (by norm_num), numStr_parse 16 v (by norm_num) (by norm_num) h64]

/-- Witness of C8: the doubleword `0xBEEF`, shown as `0000beef`. -/
theorem hex_format_witness :
    (IsIntegerSize 4 ∧ 0xbeef < 2 ^ (8 * 4)) ∧
    ((formatInteger Mode.Hex 4 0xbeef).length = 2 * 4 ∧
    (∀ c ∈ (formatInteger Mode.Hex 4 0xbeef).data, c ∈ "0123456789abcdef".data) ∧
    (formatInteger Mode.Hex 4 0xbeef).data =
      List.replicate (2 * 4 - (Nat.toDigits 16 0xbeef).length) '0' ++ Nat.toDigits 16 0xbeef ∧
    parseDigits 16 (formatInteger Mode.Hex 4 0xbeef).data 0 = some 0xbeef) :=
  ⟨⟨by decide, by decide⟩, hex_format 4 0xbeef (by decide) (by decide)⟩

theorem toString_nat (n : Nat) : toString n = String.mk (Nat.toDigits 10 n) := rfl

theorem toString_minus (n : Nat) :
    "-" ++ toString n = String.mk ('-' :: Nat.toDigits 10 n) := rfl

theorem toString_int (x : Int) :
    toString x =
      if x < 0 then String.mk ('-' :: Nat.toDigits 10 x.natAbs)
      else String.mk (Nat.toDigits 10 x.natAbs) := by
  cases x with
  | ofNat m =>
    rw [if_neg (by simp)]
    rfl
  | negSucc m =>
    rw [if_pos (Int.negSucc_lt_zero m)]
    rfl

set_option maxRecDepth 100000 in
theorem signedFF_shown :
    signedFFDialog.value_[0]? = some 0xff ∧ signedFFDialog.text .bytes 0 = "-1" ∧
      (onUnsignedToggled sampleEnv true signedFFDialog).text .bytes 0 = "255" ∧
      (onUnsignedToggled sampleEnv true signedFFDialog).value_[0]? = some 0xff := by
  decide

/-- C9 (signed and unsigned formatting): for every integer width and every stored value of
that width, `formatInteger` in `Signed` mode sets the unpadded decimal text of the
two's-complement reading of the value (the value itself below `2^(8*size-1)`, else a minus
sign and the decimal text of `2^(8*size)` minus the value), and in `Unsigned` mode the
unpadded decimal text of the value; a byte `0xFF` shows `-1` in `Signed` mode and `255` after
the switch to `Unsigned` mode, the byte of the buffer still being `0xFF`. -/
theorem signed_unsigned_format (size v : Nat) (hs : IsIntegerSize size)
    (hv : v < 2 ^ (8 * size)) :
    (v < 2 ^ (8 * size - 1) → formatInteger Mode.Signed size v = toString v) ∧
    (2 ^ (8 * size - 1) ≤ v →
      formatInteger Mode.Signed size v = "-" ++ toString (2 ^ (8 * size) - v)) ∧
    formatInteger Mode.Signed size v = toString (toSigned size v) ∧
    formatInteger Mode.Unsigned size v = toString v ∧
    (signedFFDialog.value_[0]? = some 0xff ∧ signedFFDialog.text .bytes 0 = "-1" ∧
      (onUnsignedToggled sampleEnv true signedFFDialog).text .bytes 0 = "255" ∧
      (onUnsignedToggled sampleEnv true signedFFDialog).value_[0]? = some 0xff) := by
  obtain ⟨h1, h64⟩ := integerSize_bound size v hs hv
  have habs : (toSigned size v).natAbs < 2 ^ 64 := by
    have hc := toSigned_cases size v
    generalize toSigned size v = x at hc ⊢
    rcases hs with rfl | rfl | rfl | rfl <;>
      simp only [Nat.reduceMul, Nat.reduceSub] at hv hc ⊢ <;> omega
  have hsigned : formatInteger Mode.Signed size v = toString (toSigned size v) := by
    rw [formatInteger_Signed, toString_int,
      numStr_eq_toDigits 10 _ (by norm_num) (by norm_num) habs]
  refine ⟨?_, ?_, hsigned, ?_, signedFF_shown⟩
  · intro hlow
    have hx : toSigned size v = (v : Int) := by simp [toSigned, hlow]
    rw [hsigned, hx]
    rfl
  · intro hhigh
    have hx : toSigned size v = Int.negSucc (2 ^ (8 * size) - v - 1) := by
      have hc := toSigned_cases size v
      rw [Int.negSucc_eq]
      generalize toSigned size v = x at hc ⊢
      rcases hs with rfl | rfl | rfl | rfl <;>
        simp only [Nat.reduceMul, Nat.reduceSub] at hv hc hhigh ⊢ <;> omega
    have hn : 2 ^ (8 * size) - v - 1 + 1 = 2 ^ (8 * size) - v := by omega
    rw [hsigned, hx, ← hn]
    rfl
  · rw [formatInteger_Unsigned, numStr_eq_toDigits 10 v (by norm_num) (by norm_num) h64]
    rfl

/-- Witness of C9: the byte `0xFF`. -/
theorem signed_unsigned_format_witness :
    (IsIntegerSize 1 ∧ 0xff < 2 ^ (8 * 1)) ∧
    ((0xff < 2 ^ (8 * 1 - 1) → formatInteger Mode.Signed 1 0xff = toString 0xff) ∧
    (2 ^ (8 * 1 - 1) ≤ 0xff →
      formatInteger Mode.Signed 1 0xff = "-" ++ toString (2 ^ (8 * 1) - 0xff)) ∧
    formatInteger Mode.Signed 1 0xff = toString (toSigned 1 0xff) ∧
    formatInteger Mode.Unsigned 1 0xff = toString 0xff ∧
    (signedFFDialog.value_[0]? = some 0xff ∧ signedFFDialog.text .bytes 0 = "-1" ∧
      (onUnsignedToggled sampleEnv true signedFFDialog).text .bytes 0 = "255" ∧
      (onUnsignedToggled sampleEnv true signedFFDialog).value_[0]? = some 0xff)) :=
  ⟨⟨by decide, by decide⟩, signed_unsigned_format 1 0xff (by decide) (by decide)⟩

theorem markMemory_getElem? (env : Env) (buf : List Nat) (j : Nat) (hj : j < buf.length) :
    (markMemory env buf)[j]? = some (env.markByte j % 256) := by
  simp [markMemory, List.getElem?_map, List.getElem?_range hj]

theorem Register.value_length (r : Register) (size : Nat) : (r.value size).length = size := by
  simp [Register.value]

theorem set_value_mmx (env : Env) (newReg : Register) (d : Dialog)
    (hname : isMMXName newReg.name = true) :
    (set_value env newReg d).value_ = memcpyTo (markMemory env d.value_) 0 (newReg.value 8) := by
  simp [set_value, updateAllEntriesExcept, hname]

theorem textEdited_integer_value (env : Env) (e : Entries) (k : Nat) (t : String) (d : Dialog)
    (he : e.isInteger = true) :
    (textEdited env e k t d).value_ =
      storeInteger d.value_ (k * e.bytesPerEntry) e.bytesPerEntry
        (readInteger d.mode ((d.withText e k t).text e k) % 2 ^ (8 * e.bytesPerEntry)) := by
  unfold textEdited
  rw [editedSlot_integer env e k _ he]
  show storeInteger (d.withText e k t).value_ _ _
    (readInteger (d.withText e k t).mode _ % _) = _
  rw [(withText_value d e k t).1, (withText_value d e k t).2.1]

theorem toggled_value (env : Env) (checked : Bool) (d : Dialog) :
    (onHexToggled env checked d).value_ = d.value_ ∧
    (onSignedToggled env checked d).value_ = d.value_ ∧
    (onUnsignedToggled env checked d).value_ = d.value_ := by
  refine ⟨?_, ?_, ?_⟩ <;>
    simp only [onHexToggled, onSignedToggled, onUnsignedToggled] <;> split <;> rfl

theorem mmx_slot (e : Entries) (k : Nat) (he : e.isInteger = true)
    (hk : k < 8 / e.bytesPerEntry) : k * e.bytesPerEntry + e.bytesPerEntry ≤ 8 := by
  cases e <;> simp [Entries.isInteger] at he <;>
    simp only [Entries.bytesPerEntry] at hk ⊢ <;> omega

theorem event_high_bytes (env : Env) (ev : Event) (d : Dialog) (h : ev.onMMX) :
    (∀ j, 8 ≤ j → (ev.run env d).value_[j]? = d.value_[j]?) ∧
      (ev.run env d).value_.length = d.value_.length := by
  cases ev with
  | edited e i t =>
    obtain ⟨he, hi⟩ := h
    have hslot := mmx_slot e i he hi
    have hedit := textEdited_integer_value env e i t d he
    refine ⟨fun j hj => ?_, ?_⟩
    · show (textEdited env e i t d).value_[j]? = _
      rw [hedit, storeInteger_getElem?_outside _ _ _ _ _ (by omega)]
    · show (textEdited env e i t d).value_.length = _
      rw [hedit, storeInteger_length]
  | hexToggled checked =>
    have hv : (onHexToggled env checked d).value_ = d.value_ := (toggled_value env checked d).1
    exact ⟨fun j _ => by show (onHexToggled env checked d).value_[j]? = _; rw [hv],
      by show (onHexToggled env checked d).value_.length = _; rw [hv]⟩
  | signedToggled checked =>
    have hv : (onSignedToggled env checked d).value_ = d.value_ :=
      (toggled_value env checked d).2.1
    exact ⟨fun j _ => by show (onSignedToggled env checked d).value_[j]? = _; rw [hv],
      by show (onSignedToggled env checked d).value_.length = _; rw [hv]⟩
  | unsignedToggled checked =>
    have hv : (onUnsignedToggled env checked d).value_ = d.value_ :=
      (toggled_value env checked d).2.2
    exact ⟨fun j _ => by show (onUnsignedToggled env checked d).value_[j]? = _; rw [hv],
      by show (onUnsignedToggled env checked d).value_.length = _; rw [hv]⟩

theorem runEvents_high_bytes (env : Env) (events : List Event) (d : Dialog)
    (h : ∀ ev ∈ events, ev.onMMX) :
    (∀ j, 8 ≤ j → (runEvents env events d).value_[j]? = d.value_[j]?) ∧
      (runEvents env events d).value_.length = d.value_.length := by
  induction events generalizing d with
  | nil => exact ⟨fun _ _ => rfl, rfl⟩
  | cons ev rest ih =>
    have hev := event_high_bytes env ev d (h ev (List.mem_cons_self _ _))
    have hrest := ih (ev.run env d) (fun x hx => h x (List.mem_cons_of_mem _ hx))
    refine ⟨fun j hj => ?_, ?_⟩
    · show (runEvents env rest (ev.run env d)).value_[j]? = _
      rw [hrest.1 j hj, hev.1 j hj]
    · show (runEvents env rest (ev.run env d)).value_.length = _
      rw [hrest.2, hev.2]

/-- C5 (width isolation): in every state, a change of the text of a visible integer field of
an MMX register (slot `k` of an array of elements of `s` bytes, `k < 8 / s`), whatever the
text, changes no byte of the buffer outside the offsets `[k*s, k*s+s)`, hence no byte at offset
8 or beyond. So after an MMX register is loaded by `set_value`, whatever sequence of such edits
and of mode toggles follows, the bytes at offset 8 and beyond are those left by the loading,
the marker pattern; the first 8 bytes had been loaded from the register. -/
theorem width_isolation (env : Env) (d : Dialog) (newReg : Register)
    (hlen : d.value_.length = numBytes) (_hfit : fitsBuffer newReg)
    (hname : isMMXName newReg.name = true) :
    (∀ (st : Dialog) (e : Entries) (k : Nat) (t : String), e.isInteger = true →
      k < 8 / e.bytesPerEntry →
      (∀ j, ¬ (k * e.bytesPerEntry ≤ j ∧ j < k * e.bytesPerEntry + e.bytesPerEntry) →
        (textEdited env e k t st).value_[j]? = st.value_[j]?) ∧
      (∀ j, 8 ≤ j → (textEdited env e k t st).value_[j]? = st.value_[j]?) ∧
      (textEdited env e k t st).value_.length = st.value_.length) ∧
    (∀ events : List Event, (∀ ev ∈ events, ev.onMMX) →
      (∀ j, 8 ≤ j →
        (runEvents env events (set_value env newReg d)).value_[j]? =
          (set_value env newReg d).value_[j]?) ∧
      (∀ j, 8 ≤ j → j < numBytes →
        (runEvents env events (set_value env newReg d)).value_[j]? =
          some (env.markByte j % 256)) ∧
      (runEvents env events (set_value env newReg d)).value_.length = numBytes) ∧
    (∀ j, j < 8 → (set_value env newReg d).value_[j]? = (newReg.value 8)[j]?) := by
  have hmark : (markMemory env d.value_).length = numBytes := by
    simp [markMemory, hlen]
  have hload : ∀ j, (set_value env newReg d).value_[j]? =
      if j < 8 then (newReg.value 8)[j]? else (markMemory env d.value_)[j]? := by
    intro j
    rw [set_value_mmx env newReg d hname, memcpyTo_getElem?, Register.value_length, hmark]
    by_cases hj : j < 8
    · rw [if_pos hj, if_pos (by simp only [numBytes]; omega)]
      rfl
    · rw [if_neg hj, if_neg (by omega)]
  have hloadlen : (set_value env newReg d).value_.length = numBytes := by
    rw [set_value_mmx env newReg d hname, memcpyTo_length, hmark]
  refine ⟨?_, ?_, ?_⟩
  · intro st e k t he hk
    have hslot := mmx_slot e k he hk
    have hedit := textEdited_integer_value env e k t st he
    refine ⟨fun j hj => ?_, fun j hj => ?_, ?_⟩
    · rw [hedit, storeInteger_getElem?_outside _ _ _ _ _ hj]
    · rw [hedit, storeInteger_getElem?_outside _ _ _ _ _ (by omega)]
    · rw [hedit, storeInteger_length]
  · intro events hev
    have hrun := runEvents_high_bytes env events (set_value env newReg d) hev
    refine ⟨hrun.1, fun j hj hjn => ?_, ?_⟩
    · rw [hrun.1 j hj, hload j, if_neg (by omega),
        markMemory_getElem? env d.value_ j (by rw [hlen]; exact hjn)]
    · rw [hrun.2, hloadlen]
  · intro j hj
    rw [hload j, if_pos hj]

/-- Witness of C5: the register `mm3` is loaded into the dialog just constructed. -/
theorem width_isolation_witness :
    (xmmZeroDialog.value_.length = numBytes ∧ fitsBuffer mm3 ∧ isMMXName mm3.name = true) ∧
    ((∀ (st : Dialog) (e : Entries) (k : Nat) (t : String), e.isInteger = true →
      k < 8 / e.bytesPerEntry →
      (∀ j, ¬ (k * e.bytesPerEntry ≤ j ∧ j < k * e.bytesPerEntry + e.bytesPerEntry) →
        (textEdited sampleEnv e k t st).value_[j]? = st.value_[j]?) ∧
      (∀ j, 8 ≤ j → (textEdited sampleEnv e k t st).value_[j]? = st.value_[j]?) ∧
      (textEdited sampleEnv e k t st).value_.length = st.value_.length) ∧
    (∀ events : List Event, (∀ ev ∈ events, ev.onMMX) →
      (∀ j, 8 ≤ j →
        (runEvents sampleEnv events (set_value sampleEnv mm3 xmmZeroDialog)).value_[j]? =
          (set_value sampleEnv mm3 xmmZeroDialog).value_[j]?) ∧
      (∀ j, 8 ≤ j → j < numBytes →
        (runEvents sampleEnv events (set_value sampleEnv mm3 xmmZeroDialog)).value_[j]? =
          some (sampleEnv.markByte j % 256)) ∧
      (runEvents sampleEnv events (set_value sampleEnv mm3 xmmZeroDialog)).value_.length =
        numBytes) ∧
    (∀ j, j < 8 →
      (set_value sampleEnv mm3 xmmZeroDialog).value_[j]? = (mm3.value 8)[j]?)) :=
  ⟨⟨by decide, by decide, by decide⟩,
    width_isolation sampleEnv xmmZeroDialog mm3 (by decide) (by decide) (by decide)⟩

theorem onFloatEdited_of_not_ok (env : Env) (size : Nat) (readFloat : String → Option Nat)
    (elements : Entries) (floatIndex : Nat) (d : Dialog)
    (h : readFloat (d.text elements floatIndex) = none) :
    onFloatEdited env size readFloat elements floatIndex d = d := by
  simp [onFloatEdited, h]

theorem toULongLong_of_not_ok (t : String) (base : Nat) (h : (toULongLong t base).1 = false) :
    (toULongLong t base).2 = 0 := by
  revert h
  unfold toULongLong
  simp only
  cases parseMagnitude base (skipPlus (trimmed t.data)) with
  | none => simp
  | some v => by_cases hv : v < 18446744073709551616 <;> simp [hv]

theorem toLongLong_of_not_ok (t : String) (base : Nat) (h : (toLongLong t base).1 = false) :
    (toLongLong t base).2 = 0 := by
  revert h
  unfold toLongLong
  simp only
  split
  · next s rest heq =>
    cases parseMagnitude base rest with
    | none => simp
    | some v => by_cases hv : v ≤ 9223372036854775808 <;> simp [hv]
  · next s rest heq =>
    cases parseMagnitude base rest with
    | none => simp
    | some v => by_cases hv : v < 9223372036854775808 <;> simp [hv]
  · cases parseMagnitude base (trimmed t.data) with
    | none => simp
    | some v => by_cases hv : v < 9223372036854775808 <;> simp [hv]

theorem readInteger_of_not_ok (m : Mode) (t : String) (h : readIntegerOk m t = false) :
    readInteger m t = 0 := by
  cases m with
  | Hex => simp [readInteger, toULongLong_of_not_ok t 16 h]
  | Signed => simp [readInteger, toLongLong_of_not_ok t 10 h]
  | Unsigned => simp [readInteger, toULongLong_of_not_ok t 10 h]

set_option maxRecDepth 100000 in
theorem emptied_byte_field :
    loadedABDialog.mode = Mode.Hex ∧
    matchesHexPattern 2 "" = true ∧
    readIntegerOk Mode.Hex "" = false ∧
    loadedABDialog.value_[0]? = some 0xab ∧
    (textEdited sampleEnv .bytes 0 "" loadedABDialog).value_[0]? = some 0 ∧
    (textEdited sampleEnv .bytes 0 "" loadedABDialog).value_ ≠ loadedABDialog.value_ ∧
    loadedABDialog.text .words 0 = "cdab" ∧
    (textEdited sampleEnv .bytes 0 "" loadedABDialog).text .words 0 = "cd00" := by
  decide

/-- C3 (malformed text), evaluated on the code: in `Hex` mode the byte field 0 of a buffer
starting with `0xAB 0xCD` is emptied, which the validator of the field accepts. The conversion
of the empty text fails, yet the handler writes the 0 returned on failure into the buffer and
refreshes the other fields: byte 0 becomes 0 and the word field 0 goes from `cdab` to `cd00`.
In general `readInteger` returns 0 for every text whose conversion fails, while
`onFloatEdited` leaves the state as it is when the conversion of its text fails. -/
theorem malformed_text_overwrites_slot :
    (loadedABDialog.mode = Mode.Hex ∧
    matchesHexPattern 2 "" = true ∧
    readIntegerOk Mode.Hex "" = false ∧
    loadedABDialog.value_[0]? = some 0xab ∧
    (textEdited sampleEnv .bytes 0 "" loadedABDialog).value_[0]? = some 0 ∧
    (textEdited sampleEnv .bytes 0 "" loadedABDialog).value_ ≠ loadedABDialog.value_ ∧
    loadedABDialog.text .words 0 = "cdab" ∧
    (textEdited sampleEnv .bytes 0 "" loadedABDialog).text .words 0 = "cd00") ∧
    (∀ (m : Mode) (t : String), readIntegerOk m t = false → readInteger m t = 0) ∧
    (∀ (env : Env) (size : Nat) (readFloat : String → Option Nat) (elements : Entries)
      (floatIndex : Nat) (d : Dialog), readFloat (d.text elements floatIndex) = none →
      onFloatEdited env size readFloat elements floatIndex d = d) :=
  ⟨emptied_byte_field, readInteger_of_not_ok, onFloatEdited_of_not_ok⟩

theorem slice_eq_typed_mod (mode : Mode) (size : Nat) (t : String) (hs : IsIntegerSize size) :
    ((readInteger mode t % 2 ^ (8 * size) : Nat) : Int) =
      typedNumber mode t % 2 ^ (8 * size) := by
  cases mode with
  | Hex =>
    simp only [typedNumber, readInteger]
    generalize (toULongLong t 16).2 = u
    rcases hs with rfl | rfl | rfl | rfl <;> simp only [Nat.reduceMul] <;> omega
  | Unsigned =>
    simp only [typedNumber, readInteger]
    generalize (toULongLong t 10).2 = u
    rcases hs with rfl | rfl | rfl | rfl <;> simp only [Nat.reduceMul] <;> omega
  | Signed =>
    simp only [typedNumber, readInteger]
    generalize (toLongLong t 10).2 = x
    rcases hs with rfl | rfl | rfl | rfl <;> simp only [Nat.reduceMul] <;> omega

theorem shown_inRange (mode : Mode) (size v : Nat) (hs : IsIntegerSize size) :
    InRange mode size (shownNumber mode size (v % 2 ^ (8 * size))) := by
  cases mode with
  | Hex =>
    simp only [InRange, shownNumber]
    rcases hs with rfl | rfl | rfl | rfl <;> simp only [Nat.reduceMul] <;> omega
  | Unsigned =>
    simp only [InRange, shownNumber]
    rcases hs with rfl | rfl | rfl | rfl <;> simp only [Nat.reduceMul] <;> omega
  | Signed =>
    simp only [InRange, shownNumber]
    have hc := toSigned_cases size (v % 2 ^ (8 * size))
    generalize toSigned size (v % 2 ^ (8 * size)) = y at hc ⊢
    rcases hs with rfl | rfl | rfl | rfl <;>
      simp only [Nat.reduceMul, Nat.reduceSub] at hc ⊢ <;> omega

/-- The handler by itself: for every integer field of `8 * s` bits and every text that
converts successfully in the current mode, `onIntegerEdited` stores in the slot of the field
the number converted, reduced modulo `2 ^ (8 * s)`, and changes no byte outside the slot; the
slot stands for the number typed exactly when that number is in the range of the field. -/
theorem onIntegerEdited_truncates (env : Env) (d : Dialog) (e : Entries) (k : Nat) (t : String)
    (hwf : d.WF) (he : e.isInteger = true) (hk : k < e.count)
    (_hok : readIntegerOk d.mode t = true) :
    (((textEdited env e k t d).slice e k : Nat) : Int) =
      typedNumber d.mode t % 2 ^ (8 * e.bytesPerEntry) ∧
    (∀ j, ¬ (k * e.bytesPerEntry ≤ j ∧ j < k * e.bytesPerEntry + e.bytesPerEntry) →
      (textEdited env e k t d).value_[j]? = d.value_[j]?) ∧
    (InRange d.mode e.bytesPerEntry (typedNumber d.mode t) ↔
      shownNumber d.mode e.bytesPerEntry ((textEdited env e k t d).slice e k) =
        typedNumber d.mode t) := by
  have hwf1 : (d.withText e k t).WF := withText_WF d e k t hwf
  have hm1 : (d.withText e k t).mode = d.mode := (withText_value d e k t).2.1
  have ht1 : (d.withText e k t).text e k = t :=
    withText_text_self d e k t (by rw [hwf.entries_length]; exact hk)
  have hslice : (textEdited env e k t d).slice e k =
      readInteger d.mode t % 2 ^ (8 * e.bytesPerEntry) := by
    have := onIntegerEdited_slice env e k _ hwf1 hk
    rw [hm1, ht1] at this
    unfold textEdited
    rw [editedSlot_integer env e k _ he]
    exact this
  have hs := integer_size e he
  refine ⟨?_, ?_, ?_⟩
  · rw [hslice]
    exact slice_eq_typed_mod d.mode _ t hs
  · intro j hj
    rw [textEdited_integer_value env e k t d he, storeInteger_getElem?_outside _ _ _ _ _ hj]
  · rw [hslice]
    constructor
    · intro hr
      exact (typed_eq_shown d.mode _ t hs hr).symm
    · intro heq
      rw [← heq]
      exact shown_inRange d.mode _ _ hs

theorem signedZeroDialog_WF : signedZeroDialog.WF :=
  onSignedToggled_WF _ _ _ xmmZeroDialog_WF

theorem validatorAt_updateEntries (count : Nat) (isNotUpdated : Nat → Bool)
    (newText : Nat → String) (entries : List NumberEdit) (i : Nat) :
    ((updateEntries count isNotUpdated newText entries)[i]?).map (fun edit => edit.validator) =
      (entries[i]?).map (fun edit => edit.validator) := by
  rw [updateEntries_getElem?]
  cases entries[i]? with
  | none => rfl
  | some edit =>
    simp only [Option.map_some']
    split <;> rfl

theorem validatorAt_eq (d : Dialog) (e : Entries) (i : Nat) :
    d.validatorAt e i = (((d.entries e)[i]?).map (fun edit => edit.validator)).join := by
  unfold Dialog.validatorAt
  cases (d.entries e)[i]? <;> rfl

theorem validatorAt_updateAllEntriesExcept (env : Env) (notUpdated : Option (Entries × Nat))
    (d : Dialog) (e : Entries) (i : Nat) :
    (updateAllEntriesExcept env notUpdated d).validatorAt e i = d.validatorAt e i := by
  rw [validatorAt_eq, validatorAt_eq]
  cases e <;>
    simp only [updateAllEntriesExcept, Dialog.entries, validatorAt_updateEntries]

theorem validatorAt_setText (entries : List NumberEdit) (k : Nat) (t : String) (i : Nat) :
    ((setText entries k t)[i]?).map (fun edit => edit.validator) =
      (entries[i]?).map (fun edit => edit.validator) := by
  rw [setText, List.getElem?_modify]
  cases entries[i]? with
  | none => rfl
  | some edit =>
    simp only [Option.map_eq_map, Option.map_some']
    split <;> rfl

theorem validatorAt_withText (d : Dialog) (e : Entries) (k : Nat) (t : String)
    (e' : Entries) (i : Nat) : (d.withText e k t).validatorAt e' i = d.validatorAt e' i := by
  rw [validatorAt_eq, validatorAt_eq]
  cases e <;> cases e' <;>
    simp only [Dialog.withText, Dialog.entries, validatorAt_setText]

theorem validated_of_validatorAt (d d' : Dialog) (hmode : d'.mode = d.mode)
    (hat : ∀ e i, d'.validatorAt e i = d.validatorAt e i) (h : d.Validated) :
    d'.Validated := by
  intro e i he hi
  rw [hat, hmode]
  exact h e i he hi

theorem textEdited_Validated (env : Env) (e : Entries) (k : Nat) (t : String) (d : Dialog)
    (h : d.Validated) : (textEdited env e k t d).Validated := by
  have h1 : (d.withText e k t).Validated :=
    validated_of_validatorAt d _ (withText_value d e k t).2.1
      (fun e' i => validatorAt_withText d e k t e' i) h
  have hint : ∀ size, (onIntegerEdited env size e k (d.withText e k t)).Validated := fun size =>
    validated_of_validatorAt (d.withText e k t) _ rfl
      (fun e' i => validatorAt_updateAllEntriesExcept env _ _ e' i) h1
  have hfloat : ∀ size readFloat,
      (onFloatEdited env size readFloat e k (d.withText e k t)).Validated := by
    intro size readFloat
    unfold onFloatEdited
    split
    · exact validated_of_validatorAt (d.withText e k t) _ rfl
        (fun e' i => validatorAt_updateAllEntriesExcept env _ _ e' i) h1
    · exact h1
  unfold textEdited
  cases e
  · exact hint 1
  · exact hint 2
  · exact hint 4
  · exact hint 8
  · exact hfloat 4 _
  · exact hfloat 8 _

theorem set_value_Validated (env : Env) (newReg : Register) (d : Dialog) (h : d.Validated) :
    (set_value env newReg d).Validated :=
  validated_of_validatorAt d _ rfl
    (fun e i => validatorAt_updateAllEntriesExcept env _ _ e i) h

theorem validatorAt_setValidator (entries : List NumberEdit) (v : Validator) (i : Nat)
    (hi : i < entries.length) :
    ((setValidator entries v)[i]?).map (fun edit => edit.validator) = some (some v) := by
  simp [setValidator, List.getElem?_map, List.getElem?_eq_getElem hi]

theorem onHexToggled_Validated (env : Env) (checked : Bool) (d : Dialog) (hwf : d.WF)
    (h : d.Validated) : (onHexToggled env checked d).Validated := by
  unfold onHexToggled
  split
  · intro e i he hi
    have hl := hwf.entries_length e
    rw [validatorAt_updateAllEntriesExcept, validatorAt_eq]
    cases e <;> simp [Entries.isInteger] at he <;>
      simp only [Dialog.entries] at hl ⊢ <;>
      rw [validatorAt_setValidator _ _ _ (by rw [hl]; exact hi)] <;> rfl
  · exact h

theorem onSignedToggled_Validated (env : Env) (checked : Bool) (d : Dialog) (hwf : d.WF)
    (h : d.Validated) : (onSignedToggled env checked d).Validated := by
  unfold onSignedToggled
  split
  · intro e i he hi
    have hl := hwf.entries_length e
    rw [validatorAt_updateAllEntriesExcept, validatorAt_eq]
    cases e <;> simp [Entries.isInteger] at he <;>
      simp only [Dialog.entries] at hl ⊢ <;>
      rw [validatorAt_setValidator _ _ _ (by rw [hl]; exact hi)] <;> rfl
  · exact h

theorem onUnsignedToggled_Validated (env : Env) (checked : Bool) (d : Dialog) (hwf : d.WF)
    (h : d.Validated) : (onUnsignedToggled env checked d).Validated := by
  unfold onUnsignedToggled
  split
  · intro e i he hi
    have hl := hwf.entries_length e
    rw [validatorAt_updateAllEntriesExcept, validatorAt_eq]
    cases e <;> simp [Entries.isInteger] at he <;>
      simp only [Dialog.entries] at hl ⊢ <;>
      rw [validatorAt_setValidator _ _ _ (by rw [hl]; exact hi)] <;> rfl
  · exact h

theorem construct_Validated (env : Env) (initial : List Nat) (initialReg : Register) :
    (construct env initial initialReg).Validated := by
  intro e i he hi
  have hno : noValidatorYet
      { mode := Mode.Hex, value_ := initial, bytes := setupEntries .bytes,
        words := setupEntries .words, dwords := setupEntries .dwords,
        qwords := setupEntries .qwords, floats32 := setupEntries .floats32,
        floats64 := setupEntries .floats64, reg := initialReg } = true := by
    rfl
  simp only [construct, onHexToggled, hno, Bool.or_true, if_true]
  rw [validatorAt_updateAllEntriesExcept, validatorAt_eq]
  cases e <;> simp [Entries.isInteger] at he <;>
    simp only [Dialog.entries] <;>
    rw [validatorAt_setValidator _ _ _ (by simpa [setupEntries] using hi)] <;> rfl

theorem lineEditInput_Validated (env : Env) (e : Entries) (k : Nat) (t : String) (d : Dialog)
    (h : d.Validated) : (lineEditInput env e k t d).Validated := by
  unfold lineEditInput
  split
  · split
    · exact textEdited_Validated env e k t d h
    · exact h
  · exact textEdited_Validated env e k t d h

theorem xmmZeroDialog_Validated : xmmZeroDialog.Validated :=
  set_value_Validated _ _ _ (construct_Validated _ _ _)

theorem signedZeroDialog_Validated : signedZeroDialog.Validated :=
  onSignedToggled_Validated _ _ _ xmmZeroDialog_WF xmmZeroDialog_Validated

theorem accepts_iff_inRange (env : Env) (mode : Mode) (e : Entries) (v : Validator)
    (t : String) (x : Int) (hmode : mode = Mode.Signed ∨ mode = Mode.Unsigned)
    (hv : installedValidator mode e = some v) (hx : decimalValue t = some x) :
    v.accepts env t = true ↔ InRange mode e.bytesPerEntry x := by
  rcases hmode with rfl | rfl <;> cases e <;>
    simp only [installedValidator, Option.some.injEq, reduceCtorEq] at hv <;>
    subst hv <;>
    simp only [Validator.accepts, ulongValidatorAccepts, hx, InRange, Entries.bytesPerEntry,
      INT8_MIN, INT8_MAX, INT16_MIN, INT16_MAX, INT32_MIN, INT32_MAX, INT64_MIN, INT64_MAX,
      UINT8_MAX, UINT16_MAX, UINT32_MAX, UINT64_MAX, decide_eq_true_eq, Nat.reduceMul,
      Nat.reduceSub] <;>
    omega

/-- C6 (out-of-range input never reaches the buffer): in a state whose integer fields carry
the validators of the current mode, as the constructor and the toggles leave them, for every
integer field of `8 * s` bits, in `Signed` mode a decimal text whose value lies outside
`[-2^(8s-1), 2^(8s-1)-1]`, and in `Unsigned` mode a decimal text whose value lies outside
`[0, 2^(8s)-1]`, is refused by the validator of the field when the user enters it: the edit
handler does not run, and the buffer and the whole state stay as they were. A decimal text
whose value is in the range is taken and does reach the handler. -/
theorem out_of_range_refused (env : Env) (d : Dialog) (e : Entries) (k : Nat) (t : String)
    (x : Int) (hval : d.Validated) (he : e.isInteger = true) (hk : k < e.count)
    (hmode : d.mode = Mode.Signed ∨ d.mode = Mode.Unsigned)
    (hx : decimalValue t = some x) :
    (¬ InRange d.mode e.bytesPerEntry x → (lineEditInput env e k t d).value_ = d.value_) ∧
    (¬ InRange d.mode e.bytesPerEntry x → lineEditInput env e k t d = d) ∧
    (InRange d.mode e.bytesPerEntry x → lineEditInput env e k t d = textEdited env e k t d) := by
  have hat := hval e k he hk
  obtain ⟨v, hv⟩ : ∃ v, installedValidator d.mode e = some v := by
    rcases hmode with h | h <;> rw [h] <;> cases e <;>
      simp [Entries.isInteger] at he <;> exact ⟨_, rfl⟩
  have hiff := accepts_iff_inRange env d.mode e v t x hmode hv hx
  rw [hv] at hat
  have hout : ¬ InRange d.mode e.bytesPerEntry x → lineEditInput env e k t d = d := by
    intro hr
    have hacc : v.accepts env t = false := by
      cases hc : v.accepts env t with
      | false => rfl
      | true => exact absurd (hiff.mp hc) hr
    simp only [lineEditInput, hat, hacc, Bool.false_eq_true, if_false]
  refine ⟨fun hr => by rw [hout hr], hout, ?_⟩
  intro hr
  simp only [lineEditInput, hat, hiff.mpr hr, if_true]

set_option maxRecDepth 100000 in
/-- Witness of C6: the text `300` entered in the byte field 0 in `Signed` mode. -/
theorem out_of_range_refused_witness :
    (signedZeroDialog.Validated ∧ Entries.bytes.isInteger = true ∧ 0 < Entries.bytes.count ∧
      (signedZeroDialog.mode = Mode.Signed ∨ signedZeroDialog.mode = Mode.Unsigned) ∧
      decimalValue "300" = some 300 ∧
      ¬ InRange signedZeroDialog.mode Entries.bytes.bytesPerEntry 300) ∧
    ((¬ InRange signedZeroDialog.mode Entries.bytes.bytesPerEntry 300 →
      (lineEditInput sampleEnv .bytes 0 "300" signedZeroDialog).value_ =
        signedZeroDialog.value_) ∧
    (¬ InRange signedZeroDialog.mode Entries.bytes.bytesPerEntry 300 →
      lineEditInput sampleEnv .bytes 0 "300" signedZeroDialog = signedZeroDialog) ∧
    (InRange signedZeroDialog.mode Entries.bytes.bytesPerEntry 300 →
      lineEditInput sampleEnv .bytes 0 "300" signedZeroDialog =
        textEdited sampleEnv .bytes 0 "300" signedZeroDialog)) :=
  ⟨⟨signedZeroDialog_Validated, rfl, by decide, Or.inl (by decide), by decide, by decide⟩,
    out_of_range_refused sampleEnv signedZeroDialog .bytes 0 "300" 300
      signedZeroDialog_Validated rfl (by decide) (Or.inl (by decide)) (by decide)⟩

set_option maxRecDepth 100000 in
/-- C10, evaluated on the code: the tab-order loop over `qwords` starts at index
`numBytes / 4 - 1 = 7` although `qwords` has `numBytes / 8 = 4` elements, and so does the loop
over `floats64`; the accesses of the loops over `bytes`, `words`, `dwords` and `floats32` are
within bounds. -/
theorem tab_order_out_of_bounds :
    (Entries.qwords, 7) ∈ tabOrderLoops numBytes ∧
    Entries.qwords.count = 4 ∧
    ¬ inBounds (Entries.qwords, 7) ∧
    (Entries.floats64, 7) ∈ tabOrderLoops numBytes ∧
    Entries.floats64.count = 4 ∧
    ¬ inBounds (Entries.floats64, 7) ∧
    (∀ access ∈ tabOrderLoops numBytes,
      access.1 ≠ Entries.qwords → access.1 ≠ Entries.floats64 → inBounds access) := by
  decide

set_option maxRecDepth 100000 in
/-- C7 as stated fails: after the doubleword field 0 of the zero XMM buffer is changed to
`DEADBEEF` in `Hex` mode, the bytes of the buffer are as stated, but none of the four fields
shows the stated text: the letters are in lower case, and the quadword 0 is not
`DEADBEEF00000000` in either case, its text being `00000000deadbeef`. -/
theorem worked_example_as_stated_fails :
    (textEdited sampleEnv .dwords 0 "DEADBEEF" xmmZeroDialog).value_.take 16 =
      [0xef, 0xbe, 0xad, 0xde, 0, 0, 0, 0, 0, 0, 0, 0, 0, 0, 0, 0] ∧
    (textEdited sampleEnv .dwords 0 "DEADBEEF" xmmZeroDialog).text .words 0 ≠ "BEEF" ∧
    (textEdited sampleEnv .dwords 0 "DEADBEEF" xmmZeroDialog).text .words 1 ≠ "DEAD" ∧
    (textEdited sampleEnv .dwords 0 "DEADBEEF" xmmZeroDialog).text .bytes 0 ≠ "EF" ∧
    (textEdited sampleEnv .dwords 0 "DEADBEEF" xmmZeroDialog).text .qwords 0 ≠
      "DEADBEEF00000000" ∧
    (textEdited sampleEnv .dwords 0 "DEADBEEF" xmmZeroDialog).text .qwords 0 ≠
      "deadbeef00000000" := by
  decide

theorem hex_DEADBEEF : readInteger Mode.Hex "DEADBEEF" % 2 ^ (8 * 4) = 0xdeadbeef := by
  decide

theorem hex_shown :
    formatInteger Mode.Hex 2 0xbeef = "beef" ∧ formatInteger Mode.Hex 2 0xdead = "dead" ∧
      formatInteger Mode.Hex 1 0xef = "ef" ∧
      formatInteger Mode.Hex 8 0xdeadbeef = "00000000deadbeef" := by
  decide

/-- C7 amended (worked example): from any state in `Hex` mode whose buffer starts with 16
zero bytes, the change of the doubleword field 0 to `DEADBEEF` makes the bytes 0..3 of the
buffer `EF BE AD DE` and leaves the bytes 4..15 zero; then the word field 0 shows `beef`, the
word field 1 `dead`, the byte field 0 `ef` and the quadword field 0 `00000000deadbeef`, while
the doubleword field 0 keeps the text typed. -/
theorem worked_example (env : Env) (d : Dialog) (hwf : d.WF) (hmode : d.mode = Mode.Hex)
    (hzero : d.value_.take 16 = List.replicate 16 0) :
    (textEdited env .dwords 0 "DEADBEEF" d).value_.take 16 =
      [0xef, 0xbe, 0xad, 0xde, 0, 0, 0, 0, 0, 0, 0, 0, 0, 0, 0, 0] ∧
    (textEdited env .dwords 0 "DEADBEEF" d).text .words 0 = "beef" ∧
    (textEdited env .dwords 0 "DEADBEEF" d).text .words 1 = "dead" ∧
    (textEdited env .dwords 0 "DEADBEEF" d).text .bytes 0 = "ef" ∧
    (textEdited env .dwords 0 "DEADBEEF" d).text .qwords 0 = "00000000deadbeef" ∧
    (textEdited env .dwords 0 "DEADBEEF" d).text .dwords 0 = "DEADBEEF" := by
  have hwf1 : (d.withText .dwords 0 "DEADBEEF").WF := withText_WF d _ _ _ hwf
  have hm1 : (d.withText .dwords 0 "DEADBEEF").mode = Mode.Hex := hmode
  have ht1 : (d.withText .dwords 0 "DEADBEEF").text .dwords 0 = "DEADBEEF" :=
    withText_text_self d _ _ _ (by rw [hwf.entries_length]; decide)
  have hbuf : d.value_ = List.replicate 16 0 ++ d.value_.drop 16 := by
    rw [← hzero, List.take_append_drop]
  have hval : (textEdited env .dwords 0 "DEADBEEF" d).value_ =
      [0xef, 0xbe, 0xad, 0xde, 0, 0, 0, 0, 0, 0, 0, 0, 0, 0, 0, 0] ++ d.value_.drop 16 := by
    rw [textEdited_integer_value env .dwords 0 "DEADBEEF" d rfl, ht1, hmode]
    show storeInteger d.value_ 0 4 (readInteger Mode.Hex "DEADBEEF" % 2 ^ (8 * 4)) = _
    rw [hex_DEADBEEF]
    generalize d.value_.drop 16 = rest at hbuf
    rw [hbuf]
    simp [storeInteger, toBytesLE, memcpyTo, List.replicate]
  have htext := fun e' j he' hj =>
    onIntegerEdited_text env .dwords 0 _ hwf1 e' j he' hj
  have hslice : ∀ e' j, ((textEdited env .dwords 0 "DEADBEEF" d).slice e' j) =
      loadInteger ([0xef, 0xbe, 0xad, 0xde, 0, 0, 0, 0, 0, 0, 0, 0, 0, 0, 0, 0] ++
        d.value_.drop 16) (j * e'.bytesPerEntry) e'.bytesPerEntry := by
    intro e' j
    rw [Dialog.slice, hval]
  have hedited : textEdited env .dwords 0 "DEADBEEF" d =
      onIntegerEdited env Entries.dwords.bytesPerEntry .dwords 0
        (d.withText .dwords 0 "DEADBEEF") := rfl
  rw [← hedited, hm1] at htext
  refine ⟨?_, ?_, ?_, ?_, ?_, ?_⟩
  · rw [hval]; rfl
  · rw [htext .words 0 rfl (by decide), if_neg (by decide), hslice]
    have : loadInteger ([0xef, 0xbe, 0xad, 0xde, 0, 0, 0, 0, 0, 0, 0, 0, 0, 0, 0, 0] ++
        d.value_.drop 16) (0 * Entries.words.bytesPerEntry) Entries.words.bytesPerEntry =
        0xbeef := by
      simp [loadInteger, fromBytesLE, Entries.bytesPerEntry]
    rw [this]
    exact hex_shown.1
  · rw [htext .words 1 rfl (by decide), if_neg (by decide), hslice]
    have : loadInteger ([0xef, 0xbe, 0xad, 0xde, 0, 0, 0, 0, 0, 0, 0, 0, 0, 0, 0, 0] ++
        d.value_.drop 16) (1 * Entries.words.bytesPerEntry) Entries.words.bytesPerEntry =
        0xdead := by
      simp [loadInteger, fromBytesLE, Entries.bytesPerEntry]
    rw [this]
    exact hex_shown.2.1
  · rw [htext .bytes 0 rfl (by decide), if_neg (by decide), hslice]
    have : loadInteger ([0xef, 0xbe, 0xad, 0xde, 0, 0, 0, 0, 0, 0, 0, 0, 0, 0, 0, 0] ++
        d.value_.drop 16) (0 * Entries.bytes.bytesPerEntry) Entries.bytes.bytesPerEntry =
        0xef := by
      simp [loadInteger, fromBytesLE, Entries.bytesPerEntry]
    rw [this]
    exact hex_shown.2.2.1
  · rw [htext .qwords 0 rfl (by decide), if_neg (by decide), hslice]
    have : loadInteger ([0xef, 0xbe, 0xad, 0xde, 0, 0, 0, 0, 0, 0, 0, 0, 0, 0, 0, 0] ++
        d.value_.drop 16) (0 * Entries.qwords.bytesPerEntry) Entries.qwords.bytesPerEntry =
        0xdeadbeef := by
      simp [loadInteger, fromBytesLE, Entries.bytesPerEntry]
    rw [this]
    exact hex_shown.2.2.2
  · rw [htext .dwords 0 rfl (by decide), if_pos rfl, ht1]

/-- Witness of C7 amended: the dialog loaded with a zero XMM register. -/
theorem worked_example_witness :
    (xmmZeroDialog.WF ∧ xmmZeroDialog.mode = Mode.Hex ∧
      xmmZeroDialog.value_.take 16 = List.replicate 16 0) ∧
    ((textEdited sampleEnv .dwords 0 "DEADBEEF" xmmZeroDialog).value_.take 16 =
      [0xef, 0xbe, 0xad, 0xde, 0, 0, 0, 0, 0, 0, 0, 0, 0, 0, 0, 0] ∧
    (textEdited sampleEnv .dwords 0 "DEADBEEF" xmmZeroDialog).text .words 0 = "beef" ∧
    (textEdited sampleEnv .dwords 0 "DEADBEEF" xmmZeroDialog).text .words 1 = "dead" ∧
    (textEdited sampleEnv .dwords 0 "DEADBEEF" xmmZeroDialog).text .bytes 0 = "ef" ∧
    (textEdited sampleEnv .dwords 0 "DEADBEEF" xmmZeroDialog).text .qwords 0 =
      "00000000deadbeef" ∧
    (textEdited sampleEnv .dwords 0 "DEADBEEF" xmmZeroDialog).text .dwords 0 = "DEADBEEF") :=
  ⟨⟨xmmZeroDialog_WF, by decide, by decide⟩,
    worked_example sampleEnv xmmZeroDialog xmmZeroDialog_WF (by decide) (by decide)⟩

end DialogEditSIMDRegister
